import Mathlib

/-!
A shallow embedding, in Lean, of the possession / event-detection /
mapping / kinematics core of the Basketball_Project repository, together
with proofs of the specification's claims about it.

Python floats over integer inputs are embedded exactly: every comparison
the source performs on `math.dist` values is a comparison between square
roots of integers, hence equivalent to the same comparison between the
squares, which we store; `math.inf` is embedded as the top element of
`WithTop ℤ`; Python true division is embedded as exact division in `ℚ`,
and a comparison of two exact quotients is embedded as the equivalent
integer cross-multiplication (`pairLtB` below, proved equal to the `ℚ`
comparison in `pairLtB_eq`).  Python dicts are embedded as association
lists in insertion order (the iteration order of a Python dict), with
`List.lookup` for keyed access.
-/

namespace Basketball

/-- A bounding box `[x1, y1, x2, y2]` as the source stores it: a list of
integers, empty when absent. -/
abbrev Bbox := List Int

/-- One frame of player tracks: `player_id → {"bbox": ...}` embedded as an
association list in dict insertion order. -/
abbrev PFrame := List (Int × Bbox)

/-- One frame of ball tracks (`ball_id → {"bbox": ...}`). -/
abbrev BFrame := List (Int × Bbox)

/-- The `consecutive_poss_cnt` dict of `detect_ball_possession`. -/
abbrev Cnt := List (Int × Nat)

/-- utils/bbox_utils.py `get_center_of_bbox`: `int((x1+x2)/2)` is the exact
midpoint truncated toward zero (`int` of a Python float). -/
def get_center_of_bbox : Bbox → Int × Int
  | [x1, y1, x2, y2] => (Int.tdiv (x1 + x2) 2, Int.tdiv (y1 + y2) 2)
  | _ => (0, 0)

/-- utils/bbox_utils.py `get_foot_pos`: `(int((x1+x2)/2), y2)`. -/
def get_foot_pos : Bbox → Int × Int
  | [x1, _, x2, y2] => (Int.tdiv (x1 + x2) 2, y2)
  | _ => (0, 0)

/-- `self.possession_threshold = 50` (BallAcqsDetector). -/
def possession_threshold : Int := 50

/-- `self.min_frames = 11` (BallAcqsDetector). -/
def min_frames : Nat := 11

/-- `self.containment_threshold = 0.8` (BallAcqsDetector); `0.8 = 4/5`
exactly. -/
def containment_threshold : ℚ := 0.8

/-- BallAcqsDetector.get_key_player_bbox_points: reference points on the
player bbox, influenced by the ball position (`//` is Python floor
division). -/
def get_key_player_bbox_points (player_bbox : Bbox) (ball_center : Int × Int) :
    List (Int × Int) :=
  match player_bbox with
  | [x1, y1, x2, y2] =>
    let ball_x := ball_center.1
    let ball_y := ball_center.2
    let width := x2 - x1
    let height := y2 - y1
    (if y1 < ball_y ∧ ball_y < y2 then [(x1, ball_y), (x2, ball_y)] else []) ++
    (if x1 < ball_x ∧ ball_x < x2 then [(ball_x, y1), (ball_x, y2)] else []) ++
    [(x1, y1), (x2, y1), (x1, y2), (x2, y2),
     (x1 + Int.fdiv width 2, y1), (x1 + Int.fdiv width 2, y2),
     (x1, y1 + Int.fdiv height 2), (x2, y1 + Int.fdiv height 2)]
  | _ => []

/-- Squared Euclidean distance between two integer points; `math.dist a b`
equals its square root, so all source comparisons transfer. -/
def distSq (a b : Int × Int) : Int :=
  (a.1 - b.1) ^ 2 + (a.2 - b.2) ^ 2

/-- BallAcqsDetector.min_dist_to_ball: fold of `min` starting at `math.inf`
(⊤) over the key points, on squared distances. -/
def min_dist_to_ball (player_bbox : Bbox) (ball_center : Int × Int) : WithTop Int :=
  (get_key_player_bbox_points player_bbox ball_center).foldl
    (fun m kp => min m ((distSq ball_center kp : Int) : WithTop Int)) ⊤

/-- The two integer areas of BallAcqsDetector.calc_ball_cont_ratio:
`(intersection_area, ball_area)`. -/
def contNum (player_bbox ball_bbox : Bbox) : Int × Int :=
  match player_bbox, ball_bbox with
  | [px1, py1, px2, py2], [bx1, by1, bx2, by2] =>
    let ball_area := (bx2 - bx1) * (by2 - by1)
    let intsc_x1 := max px1 bx1
    let intsc_y1 := max py1 by1
    let intsc_x2 := min px2 bx2
    let intsc_y2 := min py2 by2
    let intersection_area := max 0 (intsc_x2 - intsc_x1) * max 0 (intsc_y2 - intsc_y1)
    (intersection_area, ball_area)
  | _, _ => (0, 0)

/-- The exact value of a Python quotient `i/b if b != 0 else 0`. -/
def ratOfPair (p : Int × Int) : ℚ :=
  if p.2 ≠ 0 then (p.1 : ℚ) / (p.2 : ℚ) else 0

/-- BallAcqsDetector.calc_ball_cont_ratio: fraction of the ball bbox area
inside the player bbox
(`intersection_area / ball_area if ball_area != 0 else 0`), exact in ℚ. -/
def calc_ball_containment (player_bbox ball_bbox : Bbox) : ℚ :=
  ratOfPair (contNum player_bbox ball_bbox)

/-- Executable comparison of two exact quotients (`ratOfPair`), by integer
cross-multiplication with positive square denominators. -/
def pairLtB (x y : Int × Int) : Bool :=
  let a := if x.2 = 0 then ((0, 1) : Int × Int) else x
  let b := if y.2 = 0 then ((0, 1) : Int × Int) else y
  decide (a.1 * a.2 * b.2 ^ 2 < b.1 * b.2 * a.2 ^ 2)

/-- Python `max(l, key=lambda x: x[1])` on a nonempty list, with an
explicit comparison: the first element attaining the maximal second
component. -/
def pyMaxBy {α : Type} (ltB : α → α → Bool) : List (Int × α) → Option (Int × α)
  | [] => none
  | x :: xs => some (xs.foldl (fun acc y => if ltB acc.2 y.2 then y else acc) x)

/-- Python `min(l, key=lambda x: x[1])` on a nonempty list, with an
explicit comparison: the first element attaining the minimal second
component. -/
def pyMinBy {α : Type} (ltB : α → α → Bool) : List (Int × α) → Option (Int × α)
  | [] => none
  | x :: xs => some (xs.foldl (fun acc y => if ltB y.2 acc.2 then y else acc) x)

/-- BallAcqsDetector.find_best_cndt_for_poss. The single Python loop that
appends each non-empty-bbox player to `close_players` or
`reg_dist_players` is embedded as order-preserving filter/map; the
containment of a player is carried as its `(intersection_area, ball_area)`
pair, compared by `pairLtB` (equal to the exact `ℚ` comparison of
`calc_ball_cont_ratio` values by `pairLtB_eq`; `(4, 5)` is the
containment threshold `0.8 = 4/5`). -/
def find_best_cndt_for_poss (ball_bbox : Bbox) (ball_center : Int × Int)
    (players : PFrame) : Int :=
  let cands := players.filter (fun pr => !pr.2.isEmpty)
  let close_players :=
    (cands.filter (fun pr => pairLtB (4, 5) (contNum pr.2 ball_bbox))).map
      (fun pr => (pr.1, contNum pr.2 ball_bbox))
  let reg_dist_players :=
    (cands.filter (fun pr => !pairLtB (4, 5) (contNum pr.2 ball_bbox))).map
      (fun pr => (pr.1, min_dist_to_ball pr.2 ball_center))
  match pyMaxBy pairLtB close_players with
  | some best => best.1
  | none =>
    match pyMinBy (fun a b : WithTop Int => decide (a < b)) reg_dist_players with
    | some best =>
      if best.2 < ((possession_threshold * possession_threshold : Int) : WithTop Int)
      then best.1 else -1
    | none => -1

/-- `consecutive_poss_cnt.get(player, 0)`. -/
def cntGet (cnt : Cnt) (player : Int) : Nat :=
  (cnt.lookup player).getD 0

/-- Ball bbox of a frame, if the ball was detected: the entry at the
reserved id 1, skipped when missing (`if not ball_info`) or with an empty
bbox (`if not ball_bbox`). -/
def ballBBoxOf (bframe : BFrame) : Option Bbox :=
  match bframe.lookup 1 with
  | none => none
  | some bb => if bb.isEmpty then none else some bb

/-- The per-frame winning candidate: `none` when the ball is undetected,
otherwise the result of `find_best_cndt_for_poss` (possibly `-1`). -/
def frameWinner (pframe : PFrame) (bframe : BFrame) : Option Int :=
  (ballBBoxOf bframe).map
    (fun bb => find_best_cndt_for_poss bb (get_center_of_bbox bb) pframe)

/-- One iteration of the `detect_ball_possession` loop: the frame's output
value (`-1` unless a streak of at least `min_frames` is reached) and the
updated `consecutive_poss_cnt`. -/
def possStep (pframe : PFrame) (bframe : BFrame) (cnt : Cnt) : Int × Cnt :=
  match frameWinner pframe bframe with
  | none => (-1, cnt)
  | some best =>
    if best = -1 then (-1, [])
    else
      let n := cntGet cnt best + 1
      (if min_frames ≤ n then best else -1, [(best, n)])

/-- The `detect_ball_possession` loop from a given counter state; frames
are indexed by the ball-track list, players consumed positionally. -/
def possRun (pts : List PFrame) (bts : List BFrame) (cnt : Cnt) : List Int :=
  match bts with
  | [] => []
  | b :: bs =>
    let r := possStep (pts.headD []) b cnt
    r.1 :: possRun pts.tail bs r.2

/-- BallAcqsDetector.detect_ball_possession. -/
def detect_ball_possession (player_tracks : List PFrame) (ball_tracks : List BFrame) :
    List Int :=
  possRun player_tracks ball_tracks []

/-- The `consecutive_poss_cnt` state after the first `i` frames of the
run. -/
def possCntAfter (pts : List PFrame) (bts : List BFrame) (cnt : Cnt) : Nat → Cnt
  | 0 => cnt
  | i + 1 =>
    match bts with
    | [] => cnt
    | b :: bs => possCntAfter pts.tail bs (possStep (pts.headD []) b cnt).2 i

/-- One frame of the team-assignment series: `player_id → team_id`. -/
abbrev TeamFrame := List (Int × Int)

/-- `player_teams[frame].get(player, -1)`. -/
def teamGet (m : TeamFrame) (player : Int) : Int :=
  (m.lookup player).getD (-1)

/-- The loop of PassAndInterceptionDetector.detect_passes from frame `f`
onward.  `prevVal` is `ball_acquisition[f - 1]`; `ph`/`pf` are
`prev_holder`/`prev_frame_num`, updated from `prevVal` before the
transition test, exactly as in the source. -/
def passesGo (teams : List TeamFrame) :
    Int → List Int → Nat → Int → Int → List Int
  | _, [], _, _, _ => []
  | prevVal, cur :: rest, f, ph, pf =>
    let ph' := if prevVal ≠ -1 then prevVal else ph
    let pf' := if prevVal ≠ -1 then (f : Int) - 1 else pf
    let v :=
      if pf' ≠ -1 ∧ cur ≠ -1 ∧ ph' ≠ cur then
        let prev_team := teamGet (teams.getD pf'.toNat []) ph'
        let cur_team := teamGet (teams.getD f []) cur
        if prev_team = cur_team ∧ prev_team ≠ -1 then prev_team else -1
      else -1
    v :: passesGo teams cur rest (f + 1) ph' pf'

/-- PassAndInterceptionDetector.detect_passes: frame 0 keeps the `-1`
initialization, the loop runs from frame 1. -/
def detect_passes (ball_acquisition : List Int) (player_teams : List TeamFrame) :
    List Int :=
  match ball_acquisition with
  | [] => []
  | p0 :: rest => -1 :: passesGo player_teams p0 rest 1 (-1) (-1)

/-- The loop of PassAndInterceptionDetector.detect_interception from frame
`f` onward; identical state evolution to `passesGo`, with the
different-team test and the new holder's team recorded. -/
def interceptionsGo (teams : List TeamFrame) :
    Int → List Int → Nat → Int → Int → List Int
  | _, [], _, _, _ => []
  | prevVal, cur :: rest, f, ph, pf =>
    let ph' := if prevVal ≠ -1 then prevVal else ph
    let pf' := if prevVal ≠ -1 then (f : Int) - 1 else pf
    let v :=
      if pf' ≠ -1 ∧ cur ≠ -1 ∧ ph' ≠ cur then
        let prev_team := teamGet (teams.getD pf'.toNat []) ph'
        let cur_team := teamGet (teams.getD f []) cur
        if prev_team ≠ cur_team ∧ prev_team ≠ -1 ∧ cur_team ≠ -1 then cur_team else -1
      else -1
    v :: interceptionsGo teams cur rest (f + 1) ph' pf'

/-- PassAndInterceptionDetector.detect_interception. -/
def detect_interception (ball_acquisition : List Int) (player_teams : List TeamFrame) :
    List Int :=
  match ball_acquisition with
  | [] => []
  | p0 :: rest => -1 :: interceptionsGo player_teams p0 rest 1 (-1) (-1)

/-- The last frame index `j < f` whose possession value is not `-1`: the
"last known non-empty holder" carried forward across `-1` frames. -/
def lastNonNegIdx (poss : List Int) (f : Nat) : Option Nat :=
  (List.range f).reverse.find? (fun j => poss.getD j (-1) != -1)

/-- The pass value the specification assigns to frame `f`: on a transition
from the last known holder (team looked up in that holder's frame) to a
different current holder (team looked up in frame `f`) with equal valid
teams, that team id; otherwise `-1`. -/
def passAt (poss : List Int) (teams : List TeamFrame) (f : Nat) : Int :=
  match lastNonNegIdx poss f with
  | none => -1
  | some j =>
    let ph := poss.getD j (-1)
    let cur := poss.getD f (-1)
    if cur ≠ -1 ∧ ph ≠ cur then
      let prev_team := teamGet (teams.getD j []) ph
      let cur_team := teamGet (teams.getD f []) cur
      if prev_team = cur_team ∧ prev_team ≠ -1 then prev_team else -1
    else -1

/-- The interception value the specification assigns to frame `f`:
distinct valid teams on a holder transition, recording the new holder's
team. -/
def interceptionAt (poss : List Int) (teams : List TeamFrame) (f : Nat) : Int :=
  match lastNonNegIdx poss f with
  | none => -1
  | some j =>
    let ph := poss.getD j (-1)
    let cur := poss.getD f (-1)
    if cur ≠ -1 ∧ ph ≠ cur then
      let prev_team := teamGet (teams.getD j []) ph
      let cur_team := teamGet (teams.getD f []) cur
      if prev_team ≠ cur_team ∧ prev_team ≠ -1 ∧ cur_team ≠ -1 then cur_team else -1
    else -1

/-- A 2D point with exact (float-free) coordinates. -/
abbrev Pt := ℚ × ℚ

/-- An `np.ndarray` of floats, embedded as its shape together with its
row-major flattened exact data. -/
structure NpArray where
  shape : List Nat
  data : List ℚ
deriving DecidableEq

/-- `ndarray.size`: the product of the shape. -/
def NpArray.size (a : NpArray) : Nat := a.shape.prod

/-- `ndarray.ndim`: the length of the shape. -/
def NpArray.ndim (a : NpArray) : Nat := a.shape.length

/-- The exceptions the court-mapping code distinguishes: `ValueError`
(raised by the repository's own checks) and `cv2.error` (raised by the
external OpenCV calls). -/
inductive PyError where
  | valueError (msg : String)
  | cvError
deriving DecidableEq

/-- The 3×3 homography matrix produced by the external solver; its
contents are never inspected by the repository's control flow. -/
abbrev HomographyModel := List (List ℚ)

/-- Homography.__init__ (court/homography.py).  The external
`cv2.findHomography` call is the parameter `findH`, acting on the
flattened point data (`astype(np.float32)` is embedded as the identity on
the exact values); a `none` result embeds `self.model is None`, which the
source turns into a `ValueError`. -/
def homography_init (findH : List ℚ → List ℚ → Option HomographyModel)
    (source target : NpArray) : Except PyError HomographyModel :=
  if source.shape ≠ target.shape then
    .error (.valueError "Source and Target must have the same shape")
  else if source.ndim ≠ 2 ∨ source.shape.getD 1 0 ≠ 2 then
    .error (.valueError "Source and Target must be 2D arrays of shape (N, 2)")
  else
    match findH source.data target.data with
    | none => .error (.valueError "Homography matrix is None")
    | some m => .ok m

/-- Modelled from the spec: `cv2.findHomography` is external library code
absent from the repository.  Per the specification (§4.1), no solution
exists when fewer than 4 correspondences are given (8 flattened
coordinates) or when the configuration is degenerate; we model it as
returning no matrix in exactly those cases, degeneracy being abstracted by
the underlying `solve` parameter. -/
def findHomographySpec (solve : List ℚ → List ℚ → Option HomographyModel)
    (sourceData targetData : List ℚ) : Option HomographyModel :=
  if sourceData.length < 8 then none else solve sourceData targetData

/-- Homography.transform_points.  The external `cv2.perspectiveTransform`
is the parameter `pT`; a `none` result embeds a `cv2.error` raised by it
(the only caller catches it).  On success the data comes back reshaped to
(N, 2). -/
def transform_points (pT : HomographyModel → List ℚ → Option (List ℚ))
    (model : HomographyModel) (points : NpArray) : Except PyError NpArray :=
  if points.size = 0 then .ok points
  else if points.ndim ≠ 2 ∨ points.shape.getD 1 0 ≠ 2 then
    .error (.valueError "Points must be a 2D array of shape (N, 2)")
  else
    match pT model points.data with
    | none => .error .cvError
    | some res => .ok ⟨[res.length / 2, 2], res⟩

/-- CourtMap.__init__ `self.keypoints`: the 18 fixed court-diagram
reference points, with `width = 300`, `height = 161`,
`actual_width_in_meters = 28.65`, `actual_height_in_meters = 15.24`.
Each Python `int((a / h) * s)` of nonnegative exact values is the floor of
the exact rational, written here as an integer floor division after
clearing the decimal denominators (`0.91 / 15.24 = 91 / 1524`,
`5.79 / 28.65 = 579 / 2865`, `28.65 - 5.79 = 22.86 = 2286 / 100`). -/
def court_keypoints : List (Int × Int) :=
  [ (0, 0),
    (0, Int.fdiv (91 * 161) 1524),
    (0, Int.fdiv (518 * 161) 1524),
    (0, Int.fdiv (1000 * 161) 1524),
    (0, Int.fdiv (1410 * 161) 1524),
    (0, 161),
    (Int.fdiv (579 * 300) 2865, Int.fdiv (518 * 161) 1524),
    (Int.fdiv (579 * 300) 2865, Int.fdiv (1000 * 161) 1524),
    (Int.fdiv 300 2, 161),
    (Int.fdiv 300 2, 0),
    (Int.fdiv (2286 * 300) 2865, Int.fdiv (518 * 161) 1524),
    (Int.fdiv (2286 * 300) 2865, Int.fdiv (1000 * 161) 1524),
    (300, 161),
    (300, Int.fdiv (1410 * 161) 1524),
    (300, Int.fdiv (1000 * 161) 1524),
    (300, Int.fdiv (518 * 161) 1524),
    (300, Int.fdiv (91 * 161) 1524),
    (300, 0) ]

/-- Row-major flattening of 2D points into `np.ndarray` data. -/
def toNpData (pts : List Pt) : List ℚ :=
  pts.foldr (fun p acc => p.1 :: p.2 :: acc) []

/-- Indices of detected keypoints of a frame: both coordinates strictly
positive. -/
def validKpIdx (frame_keypoints : List Pt) : List Nat :=
  (List.range frame_keypoints.length).filter
    (fun idx => decide (0 < (frame_keypoints.getD idx (0, 0)).1 ∧
                        0 < (frame_keypoints.getD idx (0, 0)).2))

/-- The `source_points` array a frame hands to the Homography
constructor: the detected keypoints, as an (N, 2) array. -/
def frameSourceArr (frame_keypoints : List Pt) : NpArray :=
  ⟨[(validKpIdx frame_keypoints).length, 2],
   toNpData ((validKpIdx frame_keypoints).map (fun i => frame_keypoints.getD i (0, 0)))⟩

/-- The `target_points` array a frame hands to the Homography constructor:
the court-map keypoints at the same indices, as an (N, 2) array. -/
def frameTargetArr (frame_keypoints : List Pt) : NpArray :=
  ⟨[(validKpIdx frame_keypoints).length, 2],
   toNpData ((validKpIdx frame_keypoints).map (fun i =>
     (((court_keypoints.getD i (0, 0)).1 : ℚ),
      ((court_keypoints.getD i (0, 0)).2 : ℚ))))⟩

/-- The `np.array([get_foot_pos(bbox)])` handed to `transform_points` for
one player. -/
def playerPosArr (bbox : Bbox) : NpArray :=
  ⟨[1, 2], [((get_foot_pos bbox).1 : ℚ), ((get_foot_pos bbox).2 : ℚ)]⟩

/-- The body of the frame loop of CourtMap.integrate_players_into_map:
fewer than 4 valid keypoints, or a caught construction failure
(`except (ValueError, cv2.error)`), yields the empty mapping; otherwise
every tracked player's foot position is transformed, players whose
transform fails (same `except`) being skipped. -/
def integrate_frame (findH : List ℚ → List ℚ → Option HomographyModel)
    (pT : HomographyModel → List ℚ → Option (List ℚ))
    (frame_keypoints : List Pt) (frame_tracks : PFrame) : List (Int × Pt) :=
  if (validKpIdx frame_keypoints).length < 4 then []
  else
    match homography_init findH (frameSourceArr frame_keypoints)
        (frameTargetArr frame_keypoints) with
    | .error _ => []
    | .ok m =>
      frame_tracks.filterMap (fun pr =>
        match transform_points pT m (playerPosArr pr.2) with
        | .error _ => none
        | .ok res => some (pr.1, (res.data.getD 0 0, res.data.getD 1 0)))

/-- CourtMap.integrate_players_into_map: one output mapping per
`zip(keypoints_list, player_tracks)` frame.  (The source's
`if frame_keypoints is None` test is dead after `.tolist()` and has no
embedding.) -/
def integrate_players_into_map (findH : List ℚ → List ℚ → Option HomographyModel)
    (pT : HomographyModel → List ℚ → Option (List ℚ))
    (keypoints_list : List (List Pt)) (player_tracks : List PFrame) :
    List (List (Int × Pt)) :=
  (keypoints_list.zip player_tracks).map
    (fun pr => integrate_frame findH pT pr.1 pr.2)

/-- `WINDOW_SIZE = 5` (speed_and_distance/speed_and_dist_calc.py). -/
def WINDOW_SIZE : Nat := 5

/-- One frame of the distance (or speed) series: `player_id → meters`. -/
abbrev DistFrame := List (Int × ℚ)

/-- One iteration of the accumulation loop inside
SpeedAndDistCalc.calc_speed: the state is
(`total_dist`, `present_frames`, `cur_frame`); a frame with a distance
entry adds to the totals only when `cur_frame is not None`, and always
becomes the new `cur_frame`. -/
def speedStep (distances : List DistFrame) (player_id : Int)
    (st : ℚ × Nat × Option Nat) (i : Nat) : ℚ × Nat × Option Nat :=
  match (distances.getD i []).lookup player_id with
  | some d =>
    match st.2.2 with
    | some _ => (st.1 + d, st.2.1 + 1, some i)
    | none => (st.1, st.2.1, some i)
  | none => st

/-- The per-player body of SpeedAndDistCalc.calc_speed: the sliding-window
accumulation over frames `max(0, frame_num - 15 + 1) .. frame_num`
(clipped Nat subtraction), then the sample-count test. -/
def speedOfPlayer (distances : List DistFrame) (fps : Int) (frame_num : Nat)
    (player_id : Int) : ℚ :=
  let start_frame := frame_num + 1 - WINDOW_SIZE * 3
  let st := (List.range' start_frame (frame_num + 1 - start_frame)).foldl
    (speedStep distances player_id) (0, 0, none)
  if WINDOW_SIZE < st.2.1 then
    let time_in_s : ℚ := (st.2.1 : ℚ) / (fps : ℚ)
    if 0 < time_in_s then st.1 / time_in_s else 0
  else 0

/-- SpeedAndDistCalc.calc_speed: one output dict per frame, one entry per
player with a distance entry in that frame. -/
def calc_speed (distances : List DistFrame) (fps : Int) : List DistFrame :=
  (List.range distances.length).map (fun frame_num =>
    (distances.getD frame_num []).map
      (fun pr => (pr.1, speedOfPlayer distances fps frame_num pr.1)))

/-- A detected-keypoints result object (the elements of `keypoints_list`):
its `.xy` and `.xyn` arrays, each a list of rows of points. -/
structure KPObj where
  xy : List (List Pt)
  xyn : List (List Pt)
deriving DecidableEq

/-- The default object for out-of-store reads. -/
def kpDefault : KPObj := ⟨[], []⟩

/-- The Python object store: keypoints objects addressed by reference. -/
abbrev Store := List KPObj

/-- The in-place invalidation `keypoints_list[frame_num].xy[0][i1] = 0;
keypoints_list[frame_num].xyn[0][i1] = 0` on one object. -/
def zeroKp (o : KPObj) (i1 : Nat) : KPObj :=
  ⟨o.xy.set 0 ((o.xy.getD 0 []).set i1 (0, 0)),
   o.xyn.set 0 ((o.xyn.getD 0 []).set i1 (0, 0))⟩

/-- Squared Euclidean distance between two exact 2D points. -/
def distSqQ (a b : Pt) : ℚ :=
  (a.1 - b.1) ^ 2 + (a.2 - b.2) ^ 2

/-- The ratio-consistency test of CourtMap.validate_map for keypoint `i1`
against references `i2`, `i3`.  The source compares
`abs((ratio_frame - ratio_map) / ratio_map) > 0.8` where the ratios are
quotients of `math.dist` values (square roots) and `ratio_frame` is
`math.inf` when the frame distance `p1p3` vanishes; on the squares this is
exactly: the squared ratio quotient lies outside `[(1/5)^2, (9/5)^2]`. -/
def invalidCond (snapshot : List Pt) (i1 i2 i3 : Nat) : Bool :=
  let fd12 := distSqQ (snapshot.getD i1 (0, 0)) (snapshot.getD i2 (0, 0))
  let fd13 := distSqQ (snapshot.getD i1 (0, 0)) (snapshot.getD i3 (0, 0))
  let md12 := distSq (court_keypoints.getD i1 (0, 0)) (court_keypoints.getD i2 (0, 0))
  let md13 := distSq (court_keypoints.getD i1 (0, 0)) (court_keypoints.getD i3 (0, 0))
  if 0 < md12 ∧ 0 < md13 then
    if fd13 = 0 then true
    else
      let x := fd12 * (md13 : ℚ) / (fd13 * (md12 : ℚ))
      decide (x < 1 / 25 ∨ 81 / 25 < x)
  else false

/-- The inner `for i1 in detected_indices` loop of CourtMap.validate_map
for the frame object at `ref`: reads go to the `frame_kps` snapshot taken
before any invalidation, writes go to the store at `ref`. -/
def validateKpStep (ref : Nat) (snapshot : List Pt) (detected : List Nat) :
    Store → List Nat → List Nat → Store
  | store, _, [] => store
  | store, invalid, i1 :: rest =>
    if (snapshot.getD i1 (0, 0)).1 = 0 ∧ (snapshot.getD i1 (0, 0)).2 = 0 then
      validateKpStep ref snapshot detected store invalid rest
    else
      let other := detected.filter (fun i => decide (i ≠ i1 ∧ i ∉ invalid))
      if other.length < 2 then
        validateKpStep ref snapshot detected store invalid rest
      else
        let i2 := other.getD 0 0
        let i3 := other.getD 1 0
        if invalidCond snapshot i1 i2 i3 then
          let store' := store.set ref (zeroKp (store.getD ref kpDefault) i1)
          validateKpStep ref snapshot detected store' (invalid ++ [i1]) rest
        else
          validateKpStep ref snapshot detected store invalid rest

/-- The frame loop of CourtMap.validate_map over the (copied) references. -/
def validateFrames : Store → List Nat → Store
  | store, [] => store
  | store, ref :: refs =>
    let snapshot := ((store.getD ref kpDefault).xy.getD 0 [])
    let detected := (List.range snapshot.length).filter
      (fun i => decide (0 < (snapshot.getD i (0, 0)).1 ∧
                        0 < (snapshot.getD i (0, 0)).2))
    if detected.length < 3 then validateFrames store refs
    else validateFrames (validateKpStep ref snapshot detected store [] detected) refs

/-- CourtMap.validate_map, with Python's object graph explicit: the
argument is a list of references (indices) into a store of keypoints
objects; `deepcopy(keypoints_list)` allocates fresh copies at fresh
indices, and all subsequent in-place invalidations write through the fresh
references.  Returns the final store and the reference list the function
returns. -/
def validate_map (store : Store) (keypoints_list : List Nat) : Store × List Nat :=
  let copies := keypoints_list.map (fun r => store.getD r kpDefault)
  let store1 := store ++ copies
  let newRefs := (List.range keypoints_list.length).map (fun i => store.length + i)
  (validateFrames store1 newRefs, newRefs)

/-- The loop state (`prev_holder`, `prev_frame_num`) of the pass and
interception detectors before processing frame `f + 1`: it records the
last frame `j ≤ f - 1 < f` holding a non-`-1` possession value, or
`(-1, -1)` when there is none. -/
def holderState (poss : List Int) (f : Nat) (ph pf : Int) : Prop :=
  match lastNonNegIdx poss f with
  | none => ph = -1 ∧ pf = -1
  | some j => ph = poss.getD j (-1) ∧ pf = (j : Int)

/-- The frames of the 15-frame window ending at `f` (clipped at frame 0)
in which `player_id` has a distance entry. -/
def windowPresent (distances : List DistFrame) (player_id : Int) (f : Nat) :
    List Nat :=
  (List.range' (f + 1 - WINDOW_SIZE * 3) (f + 1 - (f + 1 - WINDOW_SIZE * 3))).filter
    (fun i => ((distances.getD i []).lookup player_id).isSome)

/-- The distance entry of `player_id` at frame `i` (0 when absent). -/
def distAt (distances : List DistFrame) (player_id : Int) (i : Nat) : ℚ :=
  ((distances.getD i []).lookup player_id).getD 0

/-- Player tracks for the pipeline scenario refuting the track-membership
claim for pass values: players 3 and 4 (both on team 1), player 3 holding
the ball for frames 0-10, player 4 for frames 11-21. -/
def c9PlayerTracks : List PFrame :=
  List.replicate 11 [(3, [0, 0, 10, 10]), (4, [100, 100, 110, 110])] ++
  List.replicate 11 [(3, [100, 100, 110, 110]), (4, [0, 0, 10, 10])]

/-- Ball tracks for the same scenario: the ball detected at the same spot
in every frame. -/
def c9BallTracks : List BFrame :=
  List.replicate 22 [(1, [0, 0, 2, 2])]

/-- Team assignments for the same scenario: players 3 and 4 both on
team 1 in every frame. -/
def c9Teams : List TeamFrame :=
  List.replicate 22 [(3, 1), (4, 1)]

/-! ## Theorems -/

theorem pairLtB_eq (x y : Int × Int) :
    pairLtB x y = decide (ratOfPair x < ratOfPair y) := by
  have key : ∀ p : Int × Int,
      ratOfPair p = ratOfPair (if p.2 = 0 then ((0, 1) : Int × Int) else p) := by
    intro p
    by_cases h : p.2 = 0 <;> simp [ratOfPair, h]
  rw [key x, key y]
  simp only [pairLtB]
  set a := if x.2 = 0 then ((0, 1) : Int × Int) else x with ha
  set b := if y.2 = 0 then ((0, 1) : Int × Int) else y with hb
  have ha2 : a.2 ≠ 0 := by
    rw [ha]; by_cases h : x.2 = 0 <;> simp [h]
  have hb2 : b.2 ≠ 0 := by
    rw [hb]; by_cases h : y.2 = 0 <;> simp [h]
  rw [decide_eq_decide, ratOfPair, ratOfPair, if_pos ha2, if_pos hb2]
  have haQ : ((a.2 : ℚ)) ≠ 0 := Int.cast_ne_zero.mpr ha2
  have hbQ : ((b.2 : ℚ)) ≠ 0 := Int.cast_ne_zero.mpr hb2
  have hpa : (0 : ℚ) < (a.2 : ℚ) ^ 2 :=
    (sq_nonneg _).lt_of_ne (Ne.symm (pow_ne_zero 2 haQ))
  have hpb : (0 : ℚ) < (b.2 : ℚ) ^ 2 :=
    (sq_nonneg _).lt_of_ne (Ne.symm (pow_ne_zero 2 hbQ))
  have e1 : ((a.1 : ℚ)) / ((a.2 : ℚ)) = ((a.1 * a.2 : Int) : ℚ) / ((a.2 : ℚ) ^ 2) := by
    push_cast
    rw [sq]
    field_simp
    ring
  have e2 : ((b.1 : ℚ)) / ((b.2 : ℚ)) = ((b.1 * b.2 : Int) : ℚ) / ((b.2 : ℚ) ^ 2) := by
    push_cast
    rw [sq]
    field_simp
    ring
  constructor
  · intro h
    rw [e1, e2, div_lt_div_iff₀ hpa hpb]
    exact_mod_cast h
  · intro h
    rw [e1, e2, div_lt_div_iff₀ hpa hpb] at h
    exact_mod_cast h

theorem tail_getD {α : Type} (l : List α) (j : Nat) (d : α) :
    l.tail.getD j d = l.getD (j + 1) d := by
  cases l <;> simp [List.getD]

theorem headD_getD {α : Type} (l : List α) (d : α) : l.headD d = l.getD 0 d := by
  cases l <;> simp [List.getD]

theorem cons_getD_succ {α : Type} (a : α) (l : List α) (j : Nat) (d : α) :
    (a :: l).getD (j + 1) d = l.getD j d := by
  simp [List.getD]

theorem cons_getD_zero {α : Type} (a : α) (l : List α) (d : α) :
    (a :: l).getD 0 d = a := by
  simp [List.getD]

theorem drop_getD {α : Type} (l : List α) (i j : Nat) (d : α) :
    (l.drop i).getD j d = l.getD (i + j) d := by
  simp [List.getD, List.getElem?_drop]

theorem drop_succ_tail {α : Type} (l : List α) (i : Nat) :
    l.drop (i + 1) = l.tail.drop i := by
  cases l <;> simp

/-- Unfolding of one possession step on a frame whose winning candidate is
the (valid) player `p`. -/
theorem possStep_winner (pf : PFrame) (bf : BFrame) (cnt : Cnt) (p : Int)
    (hw : frameWinner pf bf = some p) (hp : p ≠ -1) :
    possStep pf bf cnt =
      (if min_frames ≤ cntGet cnt p + 1 then p else -1, [(p, cntGet cnt p + 1)]) := by
  simp [possStep, hw, hp]

/-- A run whose first `J + 1` frames are all won by the player `p` (whose
stored count starts at `c`) outputs, at index `J`, the player exactly when
the accumulated streak `c + J + 1` reaches `min_frames`, and `-1`
otherwise. -/
theorem possRun_streak :
    ∀ (J : Nat) (pts : List PFrame) (bts : List BFrame) (cnt : Cnt) (p : Int) (c : Nat),
      p ≠ -1 → cntGet cnt p = c →
      (∀ j : Nat, j ≤ J → frameWinner (pts.getD j []) (bts.getD j []) = some p) →
      J < bts.length →
      (possRun pts bts cnt).getD J (-2) = if min_frames ≤ c + J + 1 then p else -1 := by
  intro J
  induction J with
  | zero =>
    intro pts bts cnt p c hp hc hw hlen
    cases bts with
    | nil => simp at hlen
    | cons b bs =>
      have hw0 := hw 0 (Nat.le_refl 0)
      rw [cons_getD_zero, ← headD_getD] at hw0
      rw [show (possRun pts (b :: bs) cnt) =
        (possStep (pts.headD []) b cnt).1 ::
          possRun pts.tail bs (possStep (pts.headD []) b cnt).2 from rfl]
      rw [possStep_winner _ _ _ _ hw0 hp, hc, cons_getD_zero]
  | succ J ih =>
    intro pts bts cnt p c hp hc hw hlen
    cases bts with
    | nil => simp at hlen
    | cons b bs =>
      have hw0 := hw 0 (Nat.zero_le _)
      rw [cons_getD_zero, ← headD_getD] at hw0
      rw [show (possRun pts (b :: bs) cnt) =
        (possStep (pts.headD []) b cnt).1 ::
          possRun pts.tail bs (possStep (pts.headD []) b cnt).2 from rfl]
      rw [possStep_winner _ _ _ _ hw0 hp, hc, cons_getD_succ]
      have hres := ih pts.tail bs [(p, c + 1)] p (c + 1) hp
        (by simp [cntGet]) ?_ ?_
      · rw [hres]
        have harith : c + 1 + J + 1 = c + (J + 1) + 1 := by omega
        rw [harith]
      · intro j hj
        rw [tail_getD]
        have := hw (j + 1) (by omega)
        rwa [cons_getD_succ] at this
      · simpa using Nat.lt_of_succ_lt_succ hlen

/-- Outputs of the possession run at index `i + j` only depend on the
suffix from `i` and the counter state accumulated over the first `i`
frames. -/
theorem possRun_getD_add :
    ∀ (i : Nat) (pts : List PFrame) (bts : List BFrame) (cnt : Cnt) (j : Nat) (d : Int),
      (possRun pts bts cnt).getD (i + j) d =
        (possRun (pts.drop i) (bts.drop i) (possCntAfter pts bts cnt i)).getD j d := by
  intro i
  induction i with
  | zero =>
    intro pts bts cnt j d
    simp [possCntAfter]
  | succ i ih =>
    intro pts bts cnt j d
    cases bts with
    | nil =>
      simp [possRun, possCntAfter, List.getD]
    | cons b bs =>
      have h1 : (possRun pts (b :: bs) cnt).getD (i + 1 + j) d =
          (possRun pts.tail bs (possStep (pts.headD []) b cnt).2).getD (i + j) d := by
        rw [show i + 1 + j = (i + j) + 1 from by omega]
        rw [show (possRun pts (b :: bs) cnt) =
          (possStep (pts.headD []) b cnt).1 ::
            possRun pts.tail bs (possStep (pts.headD []) b cnt).2 from rfl]
        rw [cons_getD_succ]
      rw [h1, ih]
      rw [drop_succ_tail pts i]
      rfl

/-- C1: possession debounce surfacing.  If player `p`'s consecutive
counter is empty before frame `i` and `p` is the per-frame winning
candidate for the 11 consecutive frames `i .. i+10`, then
`detect_ball_possession` reports `-1` at frames `i .. i+9` and `p` at
frame `i+10`; with a streak of only 10 winning frames (`i .. i+9`), all
of those frames report `-1`, so `p` is never surfaced by a 10-frame
streak. -/
theorem C1_possession_debounce
    (pts : List PFrame) (bts : List BFrame) (p : Int) (i : Nat)
    (hp : p ≠ -1)
    (hfresh : cntGet (possCntAfter pts bts [] i) p = 0) :
    ((∀ j : Nat, j ≤ 10 → frameWinner (pts.getD (i + j) []) (bts.getD (i + j) []) = some p) →
      i + 10 < bts.length →
      ((∀ j : Nat, j ≤ 9 → (detect_ball_possession pts bts).getD (i + j) (-2) = -1) ∧
        (detect_ball_possession pts bts).getD (i + 10) (-2) = p)) ∧
    ((∀ j : Nat, j ≤ 9 → frameWinner (pts.getD (i + j) []) (bts.getD (i + j) []) = some p) →
      i + 9 < bts.length →
      ∀ j : Nat, j ≤ 9 → (detect_ball_possession pts bts).getD (i + j) (-2) = -1) := by
  have key : ∀ J : Nat,
      (∀ j : Nat, j ≤ J → frameWinner (pts.getD (i + j) []) (bts.getD (i + j) []) = some p) →
      i + J < bts.length →
      (detect_ball_possession pts bts).getD (i + J) (-2) =
        if min_frames ≤ J + 1 then p else -1 := by
    intro J hw hlen
    rw [detect_ball_possession, possRun_getD_add i]
    have := possRun_streak J (pts.drop i) (bts.drop i) (possCntAfter pts bts [] i) p 0
      hp hfresh ?_ ?_
    · simpa using this
    · intro j hj
      rw [drop_getD, drop_getD]
      exact hw j hj
    · rw [List.length_drop]
      omega
  constructor
  · intro hw hlen
    constructor
    · intro j hj
      have := key j (fun j' hj' => hw j' (by omega)) (by omega)
      rw [this]
      rw [if_neg]
      rw [min_frames]
      omega
    · have := key 10 hw hlen
      rw [this]
      rw [if_pos]
      rw [min_frames]
  · intro hw hlen j hj
    have := key j (fun j' hj' => hw j' (by omega)) (by omega)
    rw [this]
    rw [if_neg]
    rw [min_frames]
    omega

/-- C1 witness: the concrete 11-frame streak of player 7 from frame 0. -/
theorem C1_possession_debounce_witness :
    (detect_ball_possession (List.replicate 11 [(7, [0, 0, 10, 10])])
        (List.replicate 11 [(1, ([1, 1, 3, 3] : Bbox))])).getD 9 (-2) = -1 ∧
    (detect_ball_possession (List.replicate 11 [(7, [0, 0, 10, 10])])
        (List.replicate 11 [(1, ([1, 1, 3, 3] : Bbox))])).getD 10 (-2) = 7 := by
  have h := C1_possession_debounce
    (List.replicate 11 [(7, [0, 0, 10, 10])])
    (List.replicate 11 [(1, ([1, 1, 3, 3] : Bbox))]) 7 0
    (by decide) (by decide)
  have h1 := h.1 (by decide) (by decide)
  exact ⟨by simpa using h1.1 9 (by omega), by simpa using h1.2⟩

/-- C2: possession counter update rule.  (a) On a ball-detected frame with
no winning candidate the counter dict is emptied; on a ball-detected frame
whose winning candidate `c` has no stored count (in particular, any
candidate other than the current leader) the whole dict is replaced by
`{c: 1}` — streak state is global.  (b) On a ball-undetected frame the
output is `-1` and the counters are left exactly unchanged.  (c) The
scenario: player 1 winning for 11 frames, one ball-detected no-candidate
frame, then player 1 winning for 5 frames yields
`[-1]*10 ++ [1] ++ [-1] ++ [-1]*5`. -/
theorem C2_counter_update
    (pf : PFrame) (bf : BFrame) (cnt : Cnt) (c : Int) :
    (frameWinner pf bf = some (-1) → possStep pf bf cnt = (-1, [])) ∧
    (frameWinner pf bf = some c → c ≠ -1 → cntGet cnt c = 0 →
      (possStep pf bf cnt).2 = [(c, 1)]) ∧
    (frameWinner pf bf = none → possStep pf bf cnt = (-1, cnt)) ∧
    detect_ball_possession
      (List.replicate 11 [(1, [0, 0, 10, 10])] ++ [[(1, [100, 100, 110, 110])]] ++
        List.replicate 5 [(1, [0, 0, 10, 10])])
      (List.replicate 17 [(1, ([0, 0, 2, 2] : Bbox))]) =
      List.replicate 10 (-1) ++ [1] ++ [-1] ++ List.replicate 5 (-1) := by
  refine ⟨?_, ?_, ?_, by decide⟩
  · intro hw
    simp [possStep, hw]
  · intro hw hc hcnt
    rw [possStep_winner _ _ _ _ hw hc, hcnt]
  · intro hw
    simp [possStep, hw]

/-- The fold underlying `pyMaxBy` returns the accumulator or a list
element, and its measure bounds the accumulator's and every element's. -/
theorem foldlMax_spec {α β : Type} [LinearOrder β] (f : α → β) (ltB : α → α → Bool)
    (hlt : ∀ a b, ltB a b = decide (f a < f b)) :
    ∀ (l : List (Int × α)) (acc : Int × α),
      (l.foldl (fun acc y => if ltB acc.2 y.2 then y else acc) acc = acc ∨
        l.foldl (fun acc y => if ltB acc.2 y.2 then y else acc) acc ∈ l) ∧
      f acc.2 ≤ f (l.foldl (fun acc y => if ltB acc.2 y.2 then y else acc) acc).2 ∧
      ∀ x ∈ l, f x.2 ≤ f (l.foldl (fun acc y => if ltB acc.2 y.2 then y else acc) acc).2 := by
  intro l
  induction l with
  | nil =>
    intro acc
    simp
  | cons y l ih =>
    intro acc
    simp only [List.foldl_cons]
    set acc' := if ltB acc.2 y.2 then y else acc with hd
    obtain ⟨hmem, hle, hall⟩ := ih acc'
    have hacc_le : f acc.2 ≤ f acc'.2 := by
      by_cases h : ltB acc.2 y.2 = true
      · rw [hd, if_pos h]
        rw [hlt] at h
        exact le_of_lt (of_decide_eq_true h)
      · rw [hd, if_neg h]
    have hy_le : f y.2 ≤ f acc'.2 := by
      by_cases h : ltB acc.2 y.2 = true
      · rw [hd, if_pos h]
      · rw [hd, if_neg h]
        rw [hlt] at h
        exact not_lt.mp (by simpa using h)
    refine ⟨?_, le_trans hacc_le hle, ?_⟩
    · rcases hmem with h | h
      · by_cases hb : ltB acc.2 y.2 = true
        · right
          rw [h, hd, if_pos hb]
          exact List.mem_cons_self y l
        · left
          rw [h, hd, if_neg hb]
      · exact Or.inr (List.mem_cons_of_mem y h)
    · intro x hx
      rcases List.mem_cons.mp hx with h | h
      · rw [h]
        exact le_trans hy_le hle
      · exact hall x h

/-- The fold underlying `pyMinBy`, dual statement. -/
theorem foldlMin_spec {α β : Type} [LinearOrder β] (f : α → β) (ltB : α → α → Bool)
    (hlt : ∀ a b, ltB a b = decide (f a < f b)) :
    ∀ (l : List (Int × α)) (acc : Int × α),
      (l.foldl (fun acc y => if ltB y.2 acc.2 then y else acc) acc = acc ∨
        l.foldl (fun acc y => if ltB y.2 acc.2 then y else acc) acc ∈ l) ∧
      f (l.foldl (fun acc y => if ltB y.2 acc.2 then y else acc) acc).2 ≤ f acc.2 ∧
      ∀ x ∈ l, f (l.foldl (fun acc y => if ltB y.2 acc.2 then y else acc) acc).2 ≤ f x.2 := by
  intro l
  induction l with
  | nil =>
    intro acc
    simp
  | cons y l ih =>
    intro acc
    simp only [List.foldl_cons]
    set acc' := if ltB y.2 acc.2 then y else acc with hd
    obtain ⟨hmem, hle, hall⟩ := ih acc'
    have hacc_le : f acc'.2 ≤ f acc.2 := by
      by_cases h : ltB y.2 acc.2 = true
      · rw [hd, if_pos h]
        rw [hlt] at h
        exact le_of_lt (of_decide_eq_true h)
      · rw [hd, if_neg h]
    have hy_le : f acc'.2 ≤ f y.2 := by
      by_cases h : ltB y.2 acc.2 = true
      · rw [hd, if_pos h]
      · rw [hd, if_neg h]
        rw [hlt] at h
        exact not_lt.mp (by simpa using h)
    refine ⟨?_, le_trans hle hacc_le, ?_⟩
    · rcases hmem with h | h
      · by_cases hb : ltB y.2 acc.2 = true
        · right
          rw [h, hd, if_pos hb]
          exact List.mem_cons_self y l
        · left
          rw [h, hd, if_neg hb]
      · exact Or.inr (List.mem_cons_of_mem y h)
    · intro x hx
      rcases List.mem_cons.mp hx with h | h
      · rw [h]
        exact le_trans hle hy_le
      · exact hall x h

/-- `pyMaxBy` returns a member whose measure dominates every member's. -/
theorem pyMaxBy_spec {α β : Type} [LinearOrder β] (f : α → β) (ltB : α → α → Bool)
    (hlt : ∀ a b, ltB a b = decide (f a < f b)) (l : List (Int × α)) (m : Int × α)
    (hm : pyMaxBy ltB l = some m) :
    m ∈ l ∧ ∀ x ∈ l, f x.2 ≤ f m.2 := by
  cases l with
  | nil => cases hm
  | cons x xs =>
    obtain ⟨hmem, hle, hall⟩ := foldlMax_spec f ltB hlt xs x
    have hm' : xs.foldl (fun acc y => if ltB acc.2 y.2 then y else acc) x = m := by
      simpa [pyMaxBy] using hm
    rw [hm'] at hmem hle hall
    refine ⟨?_, ?_⟩
    · rcases hmem with h | h
      · exact h ▸ List.mem_cons_self x xs
      · exact List.mem_cons_of_mem x h
    · intro z hz
      rcases List.mem_cons.mp hz with h | h
      · exact h ▸ hle
      · exact hall z h

/-- `pyMinBy` returns a member whose measure is below every member's. -/
theorem pyMinBy_spec {α β : Type} [LinearOrder β] (f : α → β) (ltB : α → α → Bool)
    (hlt : ∀ a b, ltB a b = decide (f a < f b)) (l : List (Int × α)) (m : Int × α)
    (hm : pyMinBy ltB l = some m) :
    m ∈ l ∧ ∀ x ∈ l, f m.2 ≤ f x.2 := by
  cases l with
  | nil => cases hm
  | cons x xs =>
    obtain ⟨hmem, hle, hall⟩ := foldlMin_spec f ltB hlt xs x
    have hm' : xs.foldl (fun acc y => if ltB y.2 acc.2 then y else acc) x = m := by
      simpa [pyMinBy] using hm
    rw [hm'] at hmem hle hall
    refine ⟨?_, ?_⟩
    · rcases hmem with h | h
      · exact h ▸ List.mem_cons_self x xs
      · exact List.mem_cons_of_mem x h
    · intro z hz
      rcases List.mem_cons.mp hz with h | h
      · exact h ▸ hle
      · exact hall z h

/-- The containment filter of `find_best_cndt_for_poss` decides exactly
the threshold comparison of the exact containment values. -/
theorem pairLtB_threshold (x : Int × Int) :
    pairLtB (4, 5) x = decide (containment_threshold < ratOfPair x) := by
  have h45 : ratOfPair (4, 5) = containment_threshold := by
    norm_num [ratOfPair, containment_threshold]
  rw [pairLtB_eq, h45]

/-- C3: per-frame candidate selection.  If some player with a bounding box
has containment strictly above the 0.8 threshold, the returned player is
one with a bounding box whose containment exceeds the threshold and is
maximal among all players (distance is not considered).  Otherwise the
player with minimal key-point distance to the ball center is returned
exactly when that distance is strictly below 50 pixels (embedded as the
squared comparison), and `-1` otherwise.  In particular a player fully
containing the ball bbox beats any closer player at containment ≤ 0.8. -/
theorem C3_candidate_selection (ball_bbox : Bbox) (ball_center : Int × Int)
    (players : PFrame)
    (_hwf : ∀ pr ∈ players, pr.2 = [] ∨ pr.2.length = 4)
    (_hball : ball_bbox.length = 4) :
    ((∃ pr ∈ players, pr.2 ≠ [] ∧
        containment_threshold < calc_ball_containment pr.2 ball_bbox) →
      ∃ pr ∈ players, pr.2 ≠ [] ∧
        find_best_cndt_for_poss ball_bbox ball_center players = pr.1 ∧
        containment_threshold < calc_ball_containment pr.2 ball_bbox ∧
        ∀ qr ∈ players, qr.2 ≠ [] →
          calc_ball_containment qr.2 ball_bbox ≤ calc_ball_containment pr.2 ball_bbox) ∧
    ((∀ pr ∈ players, pr.2 ≠ [] →
        calc_ball_containment pr.2 ball_bbox ≤ containment_threshold) →
      ((∃ pr ∈ players, pr.2 ≠ [] ∧
          min_dist_to_ball pr.2 ball_center <
            ((possession_threshold * possession_threshold : Int) : WithTop Int)) →
        ∃ pr ∈ players, pr.2 ≠ [] ∧
          find_best_cndt_for_poss ball_bbox ball_center players = pr.1 ∧
          min_dist_to_ball pr.2 ball_center <
            ((possession_threshold * possession_threshold : Int) : WithTop Int) ∧
          ∀ qr ∈ players, qr.2 ≠ [] →
            min_dist_to_ball pr.2 ball_center ≤ min_dist_to_ball qr.2 ball_center) ∧
      ((∀ pr ∈ players, pr.2 ≠ [] →
          ¬ min_dist_to_ball pr.2 ball_center <
            ((possession_threshold * possession_threshold : Int) : WithTop Int)) →
        find_best_cndt_for_poss ball_bbox ball_center players = -1)) := by
  classical
  set cands := players.filter (fun pr => !pr.2.isEmpty) with hcands
  set closeP := (cands.filter (fun pr => pairLtB (4, 5) (contNum pr.2 ball_bbox))).map
      (fun pr => (pr.1, contNum pr.2 ball_bbox)) with hcloseP
  set regP := (cands.filter (fun pr => !pairLtB (4, 5) (contNum pr.2 ball_bbox))).map
      (fun pr => (pr.1, min_dist_to_ball pr.2 ball_center)) with hregP
  have hfb : find_best_cndt_for_poss ball_bbox ball_center players =
      match pyMaxBy pairLtB closeP with
      | some best => best.1
      | none =>
        match pyMinBy (fun a b : WithTop Int => decide (a < b)) regP with
        | some best =>
          if best.2 < ((possession_threshold * possession_threshold : Int) : WithTop Int)
          then best.1 else -1
        | none => -1 := rfl
  have hmem_cands : ∀ pr : Int × Bbox, pr ∈ cands ↔ pr ∈ players ∧ pr.2 ≠ [] := by
    intro pr
    rw [hcands, List.mem_filter]
    simp [List.isEmpty_iff]
  have hclose_iff : ∀ pr : Int × Bbox,
      pairLtB (4, 5) (contNum pr.2 ball_bbox) = true ↔
        containment_threshold < calc_ball_containment pr.2 ball_bbox := by
    intro pr
    rw [pairLtB_threshold]
    simp [calc_ball_containment]
  constructor
  · rintro ⟨pr, hpr, hne, hgt⟩
    have hprc : pr ∈ cands.filter (fun pr => pairLtB (4, 5) (contNum pr.2 ball_bbox)) :=
      List.mem_filter.mpr ⟨(hmem_cands pr).mpr ⟨hpr, hne⟩, (hclose_iff pr).mpr hgt⟩
    obtain ⟨m, hm⟩ : ∃ m, pyMaxBy pairLtB closeP = some m := by
      have hne' : closeP ≠ [] := by
        rw [hcloseP]
        simp only [ne_eq, List.map_eq_nil_iff]
        intro hnil
        rw [hnil] at hprc
        cases hprc
      cases hcp : closeP with
      | nil => exact absurd hcp hne'
      | cons a as => exact ⟨_, rfl⟩
    obtain ⟨hmmem, hmax⟩ := pyMaxBy_spec ratOfPair pairLtB pairLtB_eq closeP m hm
    rw [hcloseP] at hmmem
    obtain ⟨pr', hpr'f, hpr'eq⟩ := List.mem_map.mp hmmem
    have hpr'c := List.mem_filter.mp hpr'f
    have hpr'p := (hmem_cands pr').mp hpr'c.1
    have hpr'gt := (hclose_iff pr').mp hpr'c.2
    refine ⟨pr', hpr'p.1, hpr'p.2, ?_, hpr'gt, ?_⟩
    · rw [hfb, hm, ← hpr'eq]
    · intro qr hqr hqrne
      by_cases hq : pairLtB (4, 5) (contNum qr.2 ball_bbox) = true
      · have hq_in : (qr.1, contNum qr.2 ball_bbox) ∈ closeP := by
          rw [hcloseP]
          exact List.mem_map.mpr
            ⟨qr, List.mem_filter.mpr ⟨(hmem_cands qr).mpr ⟨hqr, hqrne⟩, hq⟩, rfl⟩
        have hle := hmax _ hq_in
        calc calc_ball_containment qr.2 ball_bbox
            = ratOfPair (contNum qr.2 ball_bbox) := rfl
          _ ≤ ratOfPair m.2 := hle
          _ = calc_ball_containment pr'.2 ball_bbox := by rw [← hpr'eq]; rfl
      · have hqle : calc_ball_containment qr.2 ball_bbox ≤ containment_threshold :=
          not_lt.mp (fun hlt => hq ((hclose_iff qr).mpr hlt))
        exact le_of_lt (lt_of_le_of_lt hqle hpr'gt)
  · intro hall
    have hclose_nil : closeP = [] := by
      rw [hcloseP, List.map_eq_nil_iff, List.filter_eq_nil_iff]
      intro pr hpr
      have h1 := (hmem_cands pr).mp hpr
      intro hq
      exact absurd ((hclose_iff pr).mp (by simpa using hq))
        (not_lt.mpr (hall pr h1.1 h1.2))
    have hloose : ∀ pr ∈ players, pr.2 ≠ [] →
        (!pairLtB (4, 5) (contNum pr.2 ball_bbox)) = true := by
      intro pr hpr hne
      cases hb : pairLtB (4, 5) (contNum pr.2 ball_bbox) with
      | false => simp
      | true => exact absurd ((hclose_iff pr).mp hb) (not_lt.mpr (hall pr hpr hne))
    constructor
    · rintro ⟨pr, hpr, hne, hdist⟩
      have hprr : (pr.1, min_dist_to_ball pr.2 ball_center) ∈ regP := by
        rw [hregP]
        exact List.mem_map.mpr ⟨pr, List.mem_filter.mpr
          ⟨(hmem_cands pr).mpr ⟨hpr, hne⟩, hloose pr hpr hne⟩, rfl⟩
      obtain ⟨m, hm⟩ : ∃ m, pyMinBy (fun a b : WithTop Int => decide (a < b)) regP = some m := by
        have hne' : regP ≠ [] := fun hnil => by
          rw [hnil] at hprr
          cases hprr
        cases hcp : regP with
        | nil => exact absurd hcp hne'
        | cons a as => exact ⟨_, rfl⟩
      obtain ⟨hmmem, hmin⟩ :=
        pyMinBy_spec (id : WithTop Int → WithTop Int)
          (fun a b => decide (a < b)) (fun a b => rfl) regP m hm
      have hmlt : m.2 <
          ((possession_threshold * possession_threshold : Int) : WithTop Int) :=
        lt_of_le_of_lt (hmin _ hprr) hdist
      rw [hregP] at hmmem
      obtain ⟨pr', hpr'f, hpr'eq⟩ := List.mem_map.mp hmmem
      have hpr'c := List.mem_filter.mp hpr'f
      have hpr'p := (hmem_cands pr').mp hpr'c.1
      have hm2 : m.2 = min_dist_to_ball pr'.2 ball_center := by rw [← hpr'eq]
      refine ⟨pr', hpr'p.1, hpr'p.2, ?_, hm2 ▸ hmlt, ?_⟩
      · rw [hfb, hclose_nil]
        show (match pyMinBy (fun a b : WithTop Int => decide (a < b)) regP with
          | some best =>
            if best.2 < ((possession_threshold * possession_threshold : Int) : WithTop Int)
            then best.1 else -1
          | none => -1) = pr'.1
        rw [hm]
        show (if m.2 < ((possession_threshold * possession_threshold : Int) : WithTop Int)
          then m.1 else -1) = pr'.1
        rw [if_pos hmlt, ← hpr'eq]
      · intro qr hqr hqrne
        have hq_in : (qr.1, min_dist_to_ball qr.2 ball_center) ∈ regP := by
          rw [hregP]
          exact List.mem_map.mpr ⟨qr, List.mem_filter.mpr
            ⟨(hmem_cands qr).mpr ⟨hqr, hqrne⟩, hloose qr hqr hqrne⟩, rfl⟩
        have := hmin _ hq_in
        rw [hm2] at this
        exact this
    · intro hnone
      rw [hfb, hclose_nil]
      show (match pyMinBy (fun a b : WithTop Int => decide (a < b)) regP with
        | some best =>
          if best.2 < ((possession_threshold * possession_threshold : Int) : WithTop Int)
          then best.1 else -1
        | none => -1) = -1
      cases hm : pyMinBy (fun a b : WithTop Int => decide (a < b)) regP with
      | none => rfl
      | some m =>
        obtain ⟨hmmem, _⟩ :=
          pyMinBy_spec (id : WithTop Int → WithTop Int)
            (fun a b => decide (a < b)) (fun a b => rfl) regP m hm
        rw [hregP] at hmmem
        obtain ⟨pr', hpr'f, hpr'eq⟩ := List.mem_map.mp hmmem
        have hpr'c := List.mem_filter.mp hpr'f
        have hpr'p := (hmem_cands pr').mp hpr'c.1
        have hm2 : m.2 = min_dist_to_ball pr'.2 ball_center := by rw [← hpr'eq]
        show (if m.2 < ((possession_threshold * possession_threshold : Int) : WithTop Int)
          then m.1 else -1) = -1
        rw [if_neg]
        rw [hm2]
        exact hnone pr' hpr'p.1 hpr'p.2

/-- C3 witness: a fully containing player (id 7, containment 1) beats a
touching player (id 9, key-point distance 0, containment 1/4); a single
far player yields no candidate. -/
theorem C3_candidate_selection_witness :
    (∃ pr ∈ ([(9, [2, 2, 4, 4]), (7, [0, 0, 10, 10])] : PFrame), pr.2 ≠ [] ∧
      find_best_cndt_for_poss [1, 1, 3, 3] (2, 2)
        [(9, [2, 2, 4, 4]), (7, [0, 0, 10, 10])] = pr.1 ∧
      containment_threshold < calc_ball_containment pr.2 [1, 1, 3, 3] ∧
      ∀ qr ∈ ([(9, [2, 2, 4, 4]), (7, [0, 0, 10, 10])] : PFrame), qr.2 ≠ [] →
        calc_ball_containment qr.2 [1, 1, 3, 3] ≤
          calc_ball_containment pr.2 [1, 1, 3, 3]) ∧
    find_best_cndt_for_poss [1, 1, 3, 3] (2, 2) [(9, [100, 100, 110, 110])] = -1 := by
  constructor
  · refine (C3_candidate_selection [1, 1, 3, 3] (2, 2)
      [(9, [2, 2, 4, 4]), (7, [0, 0, 10, 10])] (by decide) (by decide)).1
      ⟨(7, [0, 0, 10, 10]), by decide, by decide, ?_⟩
    have h : contNum [0, 0, 10, 10] [1, 1, 3, 3] = (4, 4) := by decide
    simp only [calc_ball_containment, h]
    norm_num [ratOfPair, containment_threshold]
  · refine ((C3_candidate_selection [1, 1, 3, 3] (2, 2)
      [(9, [100, 100, 110, 110])] (by decide) (by decide)).2 ?_).2 ?_
    · intro pr hpr _
      have hpr' : pr = (9, ([100, 100, 110, 110] : Bbox)) := by simpa using hpr
      rw [hpr']
      have h : contNum ([100, 100, 110, 110] : Bbox) [1, 1, 3, 3] = (0, 4) := by decide
      simp only [calc_ball_containment, h]
      norm_num [ratOfPair, containment_threshold]
    · intro pr hpr _
      have hpr' : pr = (9, ([100, 100, 110, 110] : Bbox)) := by simpa using hpr
      rw [hpr']
      decide

theorem lastNonNegIdx_zero (poss : List Int) : lastNonNegIdx poss 0 = none := rfl

theorem lastNonNegIdx_succ (poss : List Int) (f : Nat) :
    lastNonNegIdx poss (f + 1) =
      if poss.getD f (-1) ≠ -1 then some f else lastNonNegIdx poss f := by
  unfold lastNonNegIdx
  rw [List.range_succ, List.reverse_append, List.reverse_singleton,
    List.singleton_append]
  by_cases h : poss.getD f (-1) ≠ -1
  · rw [if_pos h, List.find?_cons_of_pos]
    simpa using h
  · rw [if_neg h, List.find?_cons_of_neg]
    simpa using h

theorem drop_cons_getD {α : Type} (l : List α) (f : Nat) (c : α) (rest : List α)
    (d : α) (h : l.drop f = c :: rest) : l.getD f d = c ∧ rest = l.drop (f + 1) := by
  constructor
  · have h0 : (l.drop f).getD 0 d = c := by rw [h]; rfl
    rw [drop_getD] at h0
    simpa using h0
  · have h1 : (l.drop f).tail = rest := by rw [h]; rfl
    rw [← h1, ← drop_succ_tail']
where
  drop_succ_tail' : ∀ {α : Type} (l : List α) (f : Nat), l.drop (f + 1) = (l.drop f).tail := by
    intro α l f
    induction f generalizing l with
    | zero => cases l <;> rfl
    | succ f ih =>
      cases l with
      | nil => rfl
      | cons a as => exact ih as

/-- Updating (`prev_holder`, `prev_frame_num`) with frame `g`'s possession
value preserves the last-known-holder invariant. -/
theorem holderState_update (poss : List Int) (g : Nat) (ph pf : Int)
    (hst : holderState poss g ph pf) :
    holderState poss (g + 1)
      (if poss.getD g (-1) ≠ -1 then poss.getD g (-1) else ph)
      (if poss.getD g (-1) ≠ -1 then ((g + 1 : Nat) : Int) - 1 else pf) := by
  by_cases h : poss.getD g (-1) ≠ -1
  · rw [holderState, lastNonNegIdx_succ, if_pos h, if_pos h, if_pos h]
    refine ⟨rfl, ?_⟩
    push_cast
    ring
  · rw [holderState, lastNonNegIdx_succ, if_neg h, if_neg h, if_neg h]
    exact hst

/-- The per-frame pass value computed from a correct
(`prev_holder`, `prev_frame_num`) state equals the specification value
`passAt`. -/
theorem passVal_eq (poss : List Int) (teams : List TeamFrame) (F : Nat) (ph pf : Int)
    (hst : holderState poss F ph pf) :
    (if pf ≠ -1 ∧ poss.getD F (-1) ≠ -1 ∧ ph ≠ poss.getD F (-1) then
       if teamGet (teams.getD pf.toNat []) ph = teamGet (teams.getD F []) (poss.getD F (-1)) ∧
          teamGet (teams.getD pf.toNat []) ph ≠ -1 then
         teamGet (teams.getD pf.toNat []) ph
       else -1
     else -1) = passAt poss teams F := by
  rw [passAt]
  cases hidx : lastNonNegIdx poss F with
  | none =>
    rw [holderState, hidx] at hst
    rw [if_neg]
    simp [hst.2]
  | some j =>
    rw [holderState, hidx] at hst
    obtain ⟨hph, hpf⟩ := hst
    have hpfne : pf ≠ -1 := by
      rw [hpf]
      intro hcon
      omega
    have htn : pf.toNat = j := by
      rw [hpf]
      exact Int.toNat_natCast j
    show _ = if poss.getD F (-1) ≠ -1 ∧ poss.getD j (-1) ≠ poss.getD F (-1) then
        if teamGet (teams.getD j []) (poss.getD j (-1)) =
            teamGet (teams.getD F []) (poss.getD F (-1)) ∧
           teamGet (teams.getD j []) (poss.getD j (-1)) ≠ -1 then
          teamGet (teams.getD j []) (poss.getD j (-1))
        else -1
      else -1
    rw [hph, htn]
    by_cases hcond : poss.getD F (-1) ≠ -1 ∧ poss.getD j (-1) ≠ poss.getD F (-1)
    · rw [if_pos ⟨hpfne, hcond.1, hcond.2⟩, if_pos hcond]
    · rw [if_neg fun hc => hcond ⟨hc.2.1, hc.2.2⟩, if_neg hcond]

/-- The per-frame interception value computed from a correct state equals
the specification value `interceptionAt`. -/
theorem interceptionVal_eq (poss : List Int) (teams : List TeamFrame) (F : Nat)
    (ph pf : Int) (hst : holderState poss F ph pf) :
    (if pf ≠ -1 ∧ poss.getD F (-1) ≠ -1 ∧ ph ≠ poss.getD F (-1) then
       if teamGet (teams.getD pf.toNat []) ph ≠ teamGet (teams.getD F []) (poss.getD F (-1)) ∧
          teamGet (teams.getD pf.toNat []) ph ≠ -1 ∧
          teamGet (teams.getD F []) (poss.getD F (-1)) ≠ -1 then
         teamGet (teams.getD F []) (poss.getD F (-1))
       else -1
     else -1) = interceptionAt poss teams F := by
  rw [interceptionAt]
  cases hidx : lastNonNegIdx poss F with
  | none =>
    rw [holderState, hidx] at hst
    rw [if_neg]
    simp [hst.2]
  | some j =>
    rw [holderState, hidx] at hst
    obtain ⟨hph, hpf⟩ := hst
    have hpfne : pf ≠ -1 := by
      rw [hpf]
      intro hcon
      omega
    have htn : pf.toNat = j := by
      rw [hpf]
      exact Int.toNat_natCast j
    show _ = if poss.getD F (-1) ≠ -1 ∧ poss.getD j (-1) ≠ poss.getD F (-1) then
        if teamGet (teams.getD j []) (poss.getD j (-1)) ≠
            teamGet (teams.getD F []) (poss.getD F (-1)) ∧
           teamGet (teams.getD j []) (poss.getD j (-1)) ≠ -1 ∧
           teamGet (teams.getD F []) (poss.getD F (-1)) ≠ -1 then
          teamGet (teams.getD F []) (poss.getD F (-1))
        else -1
      else -1
    rw [hph, htn]
    by_cases hcond : poss.getD F (-1) ≠ -1 ∧ poss.getD j (-1) ≠ poss.getD F (-1)
    · rw [if_pos ⟨hpfne, hcond.1, hcond.2⟩, if_pos hcond]
    · rw [if_neg fun hc => hcond ⟨hc.2.1, hc.2.2⟩, if_neg hcond]

/-- The pass loop, run from frame `f ≥ 1` with a correct carried state,
computes `passAt` at every frame it covers. -/
theorem passesGo_getD (teams : List TeamFrame) :
    ∀ (rest poss : List Int) (f : Nat) (ph pf : Int) (k : Nat) (d : Int),
      1 ≤ f →
      rest = poss.drop f →
      holderState poss (f - 1) ph pf →
      k < rest.length →
      (passesGo teams (poss.getD (f - 1) (-1)) rest f ph pf).getD k d =
        passAt poss teams (f + k) := by
  intro rest
  induction rest with
  | nil =>
    intro poss f ph pf k d _ _ _ hk
    simp at hk
  | cons cur rest' ih =>
    intro poss f ph pf k d hf hdrop hst hk
    obtain ⟨g, rfl⟩ : ∃ g, f = g + 1 := ⟨f - 1, by omega⟩
    simp only [Nat.add_sub_cancel] at hdrop hst ⊢
    obtain ⟨hcur, hrest'⟩ := drop_cons_getD poss (g + 1) cur rest' (-1) hdrop.symm
    have hunfold : passesGo teams (poss.getD g (-1)) (cur :: rest') (g + 1) ph pf =
        (if (if poss.getD g (-1) ≠ -1 then ((g + 1 : Nat) : Int) - 1 else pf) ≠ -1 ∧
            cur ≠ -1 ∧
            (if poss.getD g (-1) ≠ -1 then poss.getD g (-1) else ph) ≠ cur then
           if teamGet
                (teams.getD
                  (if poss.getD g (-1) ≠ -1 then ((g + 1 : Nat) : Int) - 1 else pf).toNat [])
                (if poss.getD g (-1) ≠ -1 then poss.getD g (-1) else ph) =
              teamGet (teams.getD (g + 1) []) cur ∧
              teamGet
                (teams.getD
                  (if poss.getD g (-1) ≠ -1 then ((g + 1 : Nat) : Int) - 1 else pf).toNat [])
                (if poss.getD g (-1) ≠ -1 then poss.getD g (-1) else ph) ≠ -1 then
             teamGet
               (teams.getD
                 (if poss.getD g (-1) ≠ -1 then ((g + 1 : Nat) : Int) - 1 else pf).toNat [])
               (if poss.getD g (-1) ≠ -1 then poss.getD g (-1) else ph)
           else -1
         else -1) ::
          passesGo teams cur rest' (g + 1 + 1)
            (if poss.getD g (-1) ≠ -1 then poss.getD g (-1) else ph)
            (if poss.getD g (-1) ≠ -1 then ((g + 1 : Nat) : Int) - 1 else pf) := rfl
    rw [hunfold]
    have hst' := holderState_update poss g ph pf hst
    cases k with
    | zero =>
      rw [cons_getD_zero]
      have := passVal_eq poss teams (g + 1)
        (if poss.getD g (-1) ≠ -1 then poss.getD g (-1) else ph)
        (if poss.getD g (-1) ≠ -1 then ((g + 1 : Nat) : Int) - 1 else pf) hst'
      rw [hcur] at this
      rw [Nat.add_zero]
      exact this
    | succ k =>
      rw [cons_getD_succ]
      have hih := ih poss (g + 1 + 1)
        (if poss.getD g (-1) ≠ -1 then poss.getD g (-1) else ph)
        (if poss.getD g (-1) ≠ -1 then ((g + 1 : Nat) : Int) - 1 else pf) k d
        (by omega) (by simpa using hrest')
        (by simpa using hst')
        (by simpa using Nat.lt_of_succ_lt_succ hk)
      rw [show poss.getD (g + 1 + 1 - 1) (-1) = cur from by
        simpa using hcur] at hih
      rw [hih]
      congr 1
      omega

/-- The interception loop, dual statement. -/
theorem interceptionsGo_getD (teams : List TeamFrame) :
    ∀ (rest poss : List Int) (f : Nat) (ph pf : Int) (k : Nat) (d : Int),
      1 ≤ f →
      rest = poss.drop f →
      holderState poss (f - 1) ph pf →
      k < rest.length →
      (interceptionsGo teams (poss.getD (f - 1) (-1)) rest f ph pf).getD k d =
        interceptionAt poss teams (f + k) := by
  intro rest
  induction rest with
  | nil =>
    intro poss f ph pf k d _ _ _ hk
    simp at hk
  | cons cur rest' ih =>
    intro poss f ph pf k d hf hdrop hst hk
    obtain ⟨g, rfl⟩ : ∃ g, f = g + 1 := ⟨f - 1, by omega⟩
    simp only [Nat.add_sub_cancel] at hdrop hst ⊢
    obtain ⟨hcur, hrest'⟩ := drop_cons_getD poss (g + 1) cur rest' (-1) hdrop.symm
    have hunfold : interceptionsGo teams (poss.getD g (-1)) (cur :: rest') (g + 1) ph pf =
        (if (if poss.getD g (-1) ≠ -1 then ((g + 1 : Nat) : Int) - 1 else pf) ≠ -1 ∧
            cur ≠ -1 ∧
            (if poss.getD g (-1) ≠ -1 then poss.getD g (-1) else ph) ≠ cur then
           if teamGet
                (teams.getD
                  (if poss.getD g (-1) ≠ -1 then ((g + 1 : Nat) : Int) - 1 else pf).toNat [])
                (if poss.getD g (-1) ≠ -1 then poss.getD g (-1) else ph) ≠
              teamGet (teams.getD (g + 1) []) cur ∧
              teamGet
                (teams.getD
                  (if poss.getD g (-1) ≠ -1 then ((g + 1 : Nat) : Int) - 1 else pf).toNat [])
                (if poss.getD g (-1) ≠ -1 then poss.getD g (-1) else ph) ≠ -1 ∧
              teamGet (teams.getD (g + 1) []) cur ≠ -1 then
             teamGet (teams.getD (g + 1) []) cur
           else -1
         else -1) ::
          interceptionsGo teams cur rest' (g + 1 + 1)
            (if poss.getD g (-1) ≠ -1 then poss.getD g (-1) else ph)
            (if poss.getD g (-1) ≠ -1 then ((g + 1 : Nat) : Int) - 1 else pf) := rfl
    rw [hunfold]
    have hst' := holderState_update poss g ph pf hst
    cases k with
    | zero =>
      rw [cons_getD_zero]
      have := interceptionVal_eq poss teams (g + 1)
        (if poss.getD g (-1) ≠ -1 then poss.getD g (-1) else ph)
        (if poss.getD g (-1) ≠ -1 then ((g + 1 : Nat) : Int) - 1 else pf) hst'
      rw [hcur] at this
      rw [Nat.add_zero]
      exact this
    | succ k =>
      rw [cons_getD_succ]
      have hih := ih poss (g + 1 + 1)
        (if poss.getD g (-1) ≠ -1 then poss.getD g (-1) else ph)
        (if poss.getD g (-1) ≠ -1 then ((g + 1 : Nat) : Int) - 1 else pf) k d
        (by omega) (by simpa using hrest')
        (by simpa using hst')
        (by simpa using Nat.lt_of_succ_lt_succ hk)
      rw [show poss.getD (g + 1 + 1 - 1) (-1) = cur from by
        simpa using hcur] at hih
      rw [hih]
      congr 1
      omega

/-- `detect_passes` computes `passAt` at every in-range frame. -/
theorem detect_passes_getD (poss : List Int) (teams : List TeamFrame) (f : Nat)
    (d : Int) (hf : f < poss.length) :
    (detect_passes poss teams).getD f d = passAt poss teams f := by
  cases poss with
  | nil => simp at hf
  | cons p0 rest =>
    cases f with
    | zero =>
      rw [detect_passes, cons_getD_zero, passAt, lastNonNegIdx_zero]
    | succ k =>
      rw [detect_passes, cons_getD_succ]
      have := passesGo_getD teams rest (p0 :: rest) 1 (-1) (-1) k d
        (le_refl 1) rfl (by rw [holderState, lastNonNegIdx_zero]; exact ⟨rfl, rfl⟩)
        (by simpa using Nat.lt_of_succ_lt_succ hf)
      rw [show ((p0 :: rest : List Int).getD (1 - 1) (-1)) = p0 from rfl] at this
      rw [this]
      congr 1
      omega

/-- `detect_interception` computes `interceptionAt` at every in-range
frame. -/
theorem detect_interception_getD (poss : List Int) (teams : List TeamFrame) (f : Nat)
    (d : Int) (hf : f < poss.length) :
    (detect_interception poss teams).getD f d = interceptionAt poss teams f := by
  cases poss with
  | nil => simp at hf
  | cons p0 rest =>
    cases f with
    | zero =>
      rw [detect_interception, cons_getD_zero, interceptionAt, lastNonNegIdx_zero]
    | succ k =>
      rw [detect_interception, cons_getD_succ]
      have := interceptionsGo_getD teams rest (p0 :: rest) 1 (-1) (-1) k d
        (le_refl 1) rfl (by rw [holderState, lastNonNegIdx_zero]; exact ⟨rfl, rfl⟩)
        (by simpa using Nat.lt_of_succ_lt_succ hf)
      rw [show ((p0 :: rest : List Int).getD (1 - 1) (-1)) = p0 from rfl] at this
      rw [this]
      congr 1
      omega

theorem passesGo_length (teams : List TeamFrame) :
    ∀ (rest : List Int) (prevVal : Int) (f : Nat) (ph pf : Int),
      (passesGo teams prevVal rest f ph pf).length = rest.length := by
  intro rest
  induction rest with
  | nil => intros; rfl
  | cons cur rest' ih =>
    intro prevVal f ph pf
    show (_ :: passesGo teams cur rest' (f + 1) _ _).length = rest'.length + 1
    rw [List.length_cons, ih]

theorem interceptionsGo_length (teams : List TeamFrame) :
    ∀ (rest : List Int) (prevVal : Int) (f : Nat) (ph pf : Int),
      (interceptionsGo teams prevVal rest f ph pf).length = rest.length := by
  intro rest
  induction rest with
  | nil => intros; rfl
  | cons cur rest' ih =>
    intro prevVal f ph pf
    show (_ :: interceptionsGo teams cur rest' (f + 1) _ _).length = rest'.length + 1
    rw [List.length_cons, ih]

theorem detect_passes_length (poss : List Int) (teams : List TeamFrame) :
    (detect_passes poss teams).length = poss.length := by
  cases poss with
  | nil => rfl
  | cons p0 rest =>
    rw [detect_passes, List.length_cons, passesGo_length, List.length_cons]

theorem detect_interception_length (poss : List Int) (teams : List TeamFrame) :
    (detect_interception poss teams).length = poss.length := by
  cases poss with
  | nil => rfl
  | cons p0 rest =>
    rw [detect_interception, List.length_cons, interceptionsGo_length, List.length_cons]

theorem getD_of_length_le {α : Type} (l : List α) (n : Nat) (d : α)
    (h : l.length ≤ n) : l.getD n d = d := by
  simp [List.getD, List.getElem?_eq_none h]

/-- At any frame, at most one of the specification's pass value and
interception value is an event: their team conditions are contradictory. -/
theorem passAt_or_interceptionAt_eq_neg_one (poss : List Int) (teams : List TeamFrame)
    (f : Nat) :
    passAt poss teams f = -1 ∨ interceptionAt poss teams f = -1 := by
  rw [passAt, interceptionAt]
  cases hidx : lastNonNegIdx poss f with
  | none => exact Or.inl rfl
  | some j =>
    show (if poss.getD f (-1) ≠ -1 ∧ poss.getD j (-1) ≠ poss.getD f (-1) then
        if teamGet (teams.getD j []) (poss.getD j (-1)) =
            teamGet (teams.getD f []) (poss.getD f (-1)) ∧
           teamGet (teams.getD j []) (poss.getD j (-1)) ≠ -1 then
          teamGet (teams.getD j []) (poss.getD j (-1))
        else -1
      else -1) = -1 ∨
      (if poss.getD f (-1) ≠ -1 ∧ poss.getD j (-1) ≠ poss.getD f (-1) then
        if teamGet (teams.getD j []) (poss.getD j (-1)) ≠
            teamGet (teams.getD f []) (poss.getD f (-1)) ∧
           teamGet (teams.getD j []) (poss.getD j (-1)) ≠ -1 ∧
           teamGet (teams.getD f []) (poss.getD f (-1)) ≠ -1 then
          teamGet (teams.getD f []) (poss.getD f (-1))
        else -1
      else -1) = -1
    by_cases hcond : poss.getD f (-1) ≠ -1 ∧ poss.getD j (-1) ≠ poss.getD f (-1)
    · rw [if_pos hcond, if_pos hcond]
      by_cases heq : teamGet (teams.getD j []) (poss.getD j (-1)) =
          teamGet (teams.getD f []) (poss.getD f (-1))
      · exact Or.inr (by rw [if_neg (fun hc => hc.1 heq)])
      · exact Or.inl (by rw [if_neg (fun hc => heq hc.1)])
    · exact Or.inl (by rw [if_neg hcond])

/-- C4: pass/interception event semantics.  At every in-range frame, the
pass detector's value is exactly the specification value `passAt` (the
last known non-empty holder carried forward across `-1` frames, teams
looked up in the holders' own frames, equal valid teams recorded as a
pass) and the interception detector's value is exactly `interceptionAt`
(differing valid teams recorded as the new holder's team); all other
frames record `-1`.  With teams `{1: 1, 2: 2}` and a possession
transition from player 1 to player 2 at frame 5,
`interceptions[5] = 2` and `passes[5] = -1`. -/
theorem C4_pass_interception_semantics
    (poss : List Int) (teams : List TeamFrame) (f : Nat) :
    (f < poss.length →
      (detect_passes poss teams).getD f (-1) = passAt poss teams f ∧
      (detect_interception poss teams).getD f (-1) = interceptionAt poss teams f) ∧
    (detect_passes [1, 1, 1, 1, 1, 2]
      (List.replicate 6 [(1, 1), (2, 2)])).getD 5 (-1) = -1 ∧
    (detect_interception [1, 1, 1, 1, 1, 2]
      (List.replicate 6 [(1, 1), (2, 2)])).getD 5 (-1) = 2 := by
  refine ⟨fun hf => ⟨?_, ?_⟩, by decide, by decide⟩
  · exact detect_passes_getD poss teams f (-1) hf
  · exact detect_interception_getD poss teams f (-1) hf

/-- C4 witness: a same-team transition at frame 1. -/
theorem C4_pass_interception_semantics_witness :
    (detect_passes [1, 2] [[(1, 1), (2, 1)], [(1, 1), (2, 1)]]).getD 1 (-1) =
      passAt [1, 2] [[(1, 1), (2, 1)], [(1, 1), (2, 1)]] 1 ∧
    (detect_interception [1, 2] [[(1, 1), (2, 1)], [(1, 1), (2, 1)]]).getD 1 (-1) =
      interceptionAt [1, 2] [[(1, 1), (2, 1)], [(1, 1), (2, 1)]] 1 :=
  (C4_pass_interception_semantics [1, 2] [[(1, 1), (2, 1)], [(1, 1), (2, 1)]] 1).1
    (by decide)

/-- C5: pass/interception mutual exclusion.  For every frame, at most one
of the pass and interception series carries a non-`-1` value, although the
two detectors run independently. -/
theorem C5_pass_interception_exclusive
    (poss : List Int) (teams : List TeamFrame) (f : Nat)
    (_hlen : teams.length = poss.length) :
    ¬ ((detect_passes poss teams).getD f (-1) ≠ -1 ∧
       (detect_interception poss teams).getD f (-1) ≠ -1) := by
  rintro ⟨hp, hi⟩
  by_cases hf : f < poss.length
  · rw [detect_passes_getD poss teams f (-1) hf] at hp
    rw [detect_interception_getD poss teams f (-1) hf] at hi
    rcases passAt_or_interceptionAt_eq_neg_one poss teams f with h | h
    · exact hp h
    · exact hi h
  · refine hp (getD_of_length_le _ f (-1) ?_)
    rw [detect_passes_length]
    omega

/-- C5 witness: the same-team transition scenario has an event in the pass
series only. -/
theorem C5_pass_interception_exclusive_witness :
    ¬ ((detect_passes [1, 2] [[(1, 1), (2, 1)], [(1, 1), (2, 1)]]).getD 1 (-1) ≠ -1 ∧
       (detect_interception [1, 2] [[(1, 1), (2, 1)], [(1, 1), (2, 1)]]).getD 1 (-1) ≠ -1) :=
  C5_pass_interception_exclusive [1, 2] [[(1, 1), (2, 1)], [(1, 1), (2, 1)]] 1
    (by decide)

/-- C6: homography error contract.  Shape mismatch, wrong dimensionality,
and an absent solver result (degenerate configuration) each raise a
`ValueError` from `Homography.__init__`; under the spec-modelled external
solver (`findHomographySpec`), fewer than 4 correspondences also raise a
`ValueError`; `transform_points` returns an empty input unchanged and
raises a `ValueError` on a non-(N, 2) nonempty input. -/
theorem C6_homography_errors
    (findH solve : List ℚ → List ℚ → Option HomographyModel)
    (pT : HomographyModel → List ℚ → Option (List ℚ))
    (source target points : NpArray) (m : HomographyModel) :
    (source.shape ≠ target.shape →
      homography_init findH source target =
        .error (.valueError "Source and Target must have the same shape")) ∧
    (source.shape = target.shape → (source.ndim ≠ 2 ∨ source.shape.getD 1 0 ≠ 2) →
      homography_init findH source target =
        .error (.valueError "Source and Target must be 2D arrays of shape (N, 2)")) ∧
    (source.shape = target.shape → source.ndim = 2 → source.shape.getD 1 0 = 2 →
      findH source.data target.data = none →
      homography_init findH source target =
        .error (.valueError "Homography matrix is None")) ∧
    (source.shape = target.shape → source.ndim = 2 → source.shape.getD 1 0 = 2 →
      source.data.length < 8 →
      homography_init (findHomographySpec solve) source target =
        .error (.valueError "Homography matrix is None")) ∧
    (points.size = 0 → transform_points pT m points = .ok points) ∧
    (points.size ≠ 0 → (points.ndim ≠ 2 ∨ points.shape.getD 1 0 ≠ 2) →
      transform_points pT m points =
        .error (.valueError "Points must be a 2D array of shape (N, 2)")) := by
  refine ⟨?_, ?_, ?_, ?_, ?_, ?_⟩
  · intro h
    rw [homography_init, if_pos h]
  · intro h1 h2
    rw [homography_init, if_neg (by simp [h1]), if_pos h2]
  · intro h1 h2 h3 h4
    rw [homography_init, if_neg (by simp [h1]), if_neg (by push_neg; exact ⟨h2, h3⟩)]
    rw [h4]
  · intro h1 h2 h3 h4
    rw [homography_init, if_neg (by simp [h1]), if_neg (by push_neg; exact ⟨h2, h3⟩)]
    rw [findHomographySpec, if_pos h4]
  · intro h
    rw [transform_points, if_pos h]
  · intro h1 h2
    rw [transform_points, if_neg h1, if_pos h2]

/-- C6 witness: concrete malformed inputs for each error path and a
concrete empty input returned unchanged. -/
theorem C6_homography_errors_witness :
    homography_init (fun _ _ => none) ⟨[1, 2], [0, 0]⟩ ⟨[2, 2], [0, 0, 1, 1]⟩ =
      .error (.valueError "Source and Target must have the same shape") ∧
    homography_init (findHomographySpec fun _ _ => some [])
      ⟨[3, 2], [0, 0, 1, 0, 0, 1]⟩ ⟨[3, 2], [0, 0, 1, 0, 0, 1]⟩ =
      .error (.valueError "Homography matrix is None") ∧
    transform_points (fun _ _ => some []) [] ⟨[0, 2], []⟩ = .ok ⟨[0, 2], []⟩ ∧
    transform_points (fun _ _ => some []) [] ⟨[3], [1, 2, 3]⟩ =
      .error (.valueError "Points must be a 2D array of shape (N, 2)") := by
  refine ⟨?_, ?_, ?_, ?_⟩
  · exact (C6_homography_errors (fun _ _ => none) (fun _ _ => some []) (fun _ _ => some [])
      ⟨[1, 2], [0, 0]⟩ ⟨[2, 2], [0, 0, 1, 1]⟩ ⟨[0, 2], []⟩ []).1 (by decide)
  · exact (C6_homography_errors (fun _ _ => none) (fun _ _ => some []) (fun _ _ => some [])
      ⟨[3, 2], [0, 0, 1, 0, 0, 1]⟩ ⟨[3, 2], [0, 0, 1, 0, 0, 1]⟩
      ⟨[0, 2], []⟩ []).2.2.2.1 (by decide) (by decide) (by decide) (by decide)
  · exact (C6_homography_errors (fun _ _ => none) (fun _ _ => some []) (fun _ _ => some [])
      ⟨[1, 2], [0, 0]⟩ ⟨[2, 2], [0, 0, 1, 1]⟩ ⟨[0, 2], []⟩ []).2.2.2.2.1 (by decide)
  · exact (C6_homography_errors (fun _ _ => none) (fun _ _ => some []) (fun _ _ => some [])
      ⟨[1, 2], [0, 0]⟩ ⟨[2, 2], [0, 0, 1, 1]⟩ ⟨[3], [1, 2, 3]⟩ []).2.2.2.2.2
      (by decide) (by decide)

theorem nodup_keys_eq {α : Type} (l : List (Int × α))
    (hnd : (l.map Prod.fst).Nodup) :
    ∀ a ∈ l, ∀ b ∈ l, a.1 = b.1 → a = b := by
  induction l with
  | nil => intro a ha; cases ha
  | cons x xs ih =>
    rw [List.map_cons, List.nodup_cons] at hnd
    intro a ha b hb hab
    rcases List.mem_cons.mp ha with h1 | h1 <;> rcases List.mem_cons.mp hb with h2 | h2
    · rw [h1, h2]
    · exact absurd (List.mem_map.mpr ⟨b, h2, by rw [← hab, h1]⟩) hnd.1
    · exact absurd (List.mem_map.mpr ⟨a, h1, by rw [hab, h2]⟩) hnd.1
    · exact ih hnd.2 a h1 b h2 hab

/-- C7: position-mapper failure absorption.  The mapper is a total
function producing exactly one mapping per (zipped) frame; a frame with
fewer than 4 detected keypoints yields the empty mapping; a caught
homography-construction failure yields the empty mapping; on success the
frame's mapping is the `filterMap` of the per-player transforms, so a
player whose transform fails is omitted (never aborting the frame) and
every player whose transform succeeds is present. -/
theorem C7_position_mapper_absorption
    (findH : List ℚ → List ℚ → Option HomographyModel)
    (pT : HomographyModel → List ℚ → Option (List ℚ))
    (kl : List (List Pt)) (pts : List PFrame)
    (fk : List Pt) (ft : PFrame) (f : Nat) (m : HomographyModel) :
    (integrate_players_into_map findH pT kl pts).length = min kl.length pts.length ∧
    (f < min kl.length pts.length →
      (integrate_players_into_map findH pT kl pts).getD f [] =
        integrate_frame findH pT (kl.getD f []) (pts.getD f [])) ∧
    ((validKpIdx fk).length < 4 → integrate_frame findH pT fk ft = []) ∧
    (∀ e : PyError,
      homography_init findH (frameSourceArr fk) (frameTargetArr fk) = .error e →
      integrate_frame findH pT fk ft = []) ∧
    (¬ (validKpIdx fk).length < 4 →
      homography_init findH (frameSourceArr fk) (frameTargetArr fk) = .ok m →
      integrate_frame findH pT fk ft =
        ft.filterMap (fun pr =>
          match transform_points pT m (playerPosArr pr.2) with
          | .error _ => none
          | .ok res => some (pr.1, (res.data.getD 0 0, res.data.getD 1 0))) ∧
      (∀ pr ∈ ft, transform_points pT m (playerPosArr pr.2) = .error .cvError →
        (ft.map Prod.fst).Nodup →
        ∀ q : Pt, (pr.1, q) ∉ integrate_frame findH pT fk ft) ∧
      (∀ pr ∈ ft, ∀ res : NpArray,
        transform_points pT m (playerPosArr pr.2) = .ok res →
        ∃ q : Pt, (pr.1, q) ∈ integrate_frame findH pT fk ft)) := by
  refine ⟨?_, ?_, ?_, ?_, ?_⟩
  · rw [integrate_players_into_map, List.length_map, List.length_zip]
  · intro hf
    rw [integrate_players_into_map]
    have hlen : f < (kl.zip pts).length := by rw [List.length_zip]; exact hf
    have hk : f < kl.length := by omega
    have hp : f < pts.length := by omega
    have h1 : ((kl.zip pts).map
        (fun pr => integrate_frame findH pT pr.1 pr.2)).getD f [] =
        integrate_frame findH pT ((kl.zip pts).getD f ([], [])).1
          ((kl.zip pts).getD f ([], [])).2 := by
      simp [List.getD, List.getElem?_map, List.getElem?_eq_getElem hlen]
    have hz : (kl.zip pts).getD f ([], []) = (kl.getD f [], pts.getD f []) := by
      simp [List.getD, List.getElem?_eq_getElem, hlen, hk, hp, List.getElem_zip]
    rw [h1, hz]
  · intro h
    rw [integrate_frame, if_pos h]
  · intro e herr
    rw [integrate_frame]
    by_cases h : (validKpIdx fk).length < 4
    · rw [if_pos h]
    · rw [if_neg h, herr]
  · intro hval hok
    have heq : integrate_frame findH pT fk ft =
        ft.filterMap (fun pr =>
          match transform_points pT m (playerPosArr pr.2) with
          | .error _ => none
          | .ok res => some (pr.1, (res.data.getD 0 0, res.data.getD 1 0))) := by
      rw [integrate_frame, if_neg hval, hok]
    refine ⟨heq, ?_, ?_⟩
    · intro pr hpr htr hnd q hmem
      rw [heq] at hmem
      obtain ⟨a, ha, hFa⟩ := List.mem_filterMap.mp hmem
      have ha1 : a.1 = pr.1 := by
        cases htra : transform_points pT m (playerPosArr a.2) with
        | error e => rw [htra] at hFa; cases hFa
        | ok res =>
          rw [htra] at hFa
          have hFa' : some ((a.1, (res.data.getD 0 0, res.data.getD 1 0)) : Int × Pt) =
              some (pr.1, q) := hFa
          have hpair : ((a.1, (res.data.getD 0 0, res.data.getD 1 0)) : Int × Pt) =
              (pr.1, q) := Option.some.inj hFa'
          have h1 : ((a.1, (res.data.getD 0 0, res.data.getD 1 0)) : Int × Pt).1 =
              ((pr.1, q) : Int × Pt).1 := congrArg Prod.fst hpair
          exact h1
      have : a = pr := nodup_keys_eq ft hnd a ha pr hpr ha1
      rw [this] at hFa
      rw [htr] at hFa
      cases hFa
    · intro pr hpr res htr
      refine ⟨(res.data.getD 0 0, res.data.getD 1 0), ?_⟩
      rw [heq]
      exact List.mem_filterMap.mpr ⟨pr, hpr, by rw [htr]⟩

/-- C7 witness: a frame with 4 detected keypoints; with an all-failing
transform the players are absent, with an all-succeeding transform a
player is present; a frame with fewer than 4 keypoints is empty. -/
theorem C7_position_mapper_absorption_witness :
    integrate_frame (fun _ _ => some []) (fun _ _ => none)
      [(1, 1), (2, 1), (1, 2), (2, 2)] [(1, [0, 0, 2, 2])] =
      ([(1, [0, 0, 2, 2])] : PFrame).filterMap (fun pr =>
        match transform_points (fun _ _ => none) [] (playerPosArr pr.2) with
        | .error _ => none
        | .ok res => some (pr.1, ((res.data.getD 0 0, res.data.getD 1 0) : Pt))) ∧
    (∀ q : Pt, (1, q) ∉ integrate_frame (fun _ _ => some []) (fun _ _ => none)
      [(1, 1), (2, 1), (1, 2), (2, 2)] [(1, [0, 0, 2, 2])]) ∧
    (∃ q : Pt, (1, q) ∈ integrate_frame (fun _ _ => some []) (fun _ d => some d)
      [(1, 1), (2, 1), (1, 2), (2, 2)] [(1, [0, 0, 2, 2])]) ∧
    integrate_frame (fun _ _ => some []) (fun _ d => some d) [(1, 1)] [(1, [0, 0, 2, 2])] = [] := by
  refine ⟨?_, ?_, ?_, ?_⟩
  · exact ((C7_position_mapper_absorption (fun _ _ => some []) (fun _ _ => none)
      [] [] [(1, 1), (2, 1), (1, 2), (2, 2)] [(1, [0, 0, 2, 2])] 0 []).2.2.2.2
      (by decide) (by rfl)).1
  · exact fun q => ((C7_position_mapper_absorption (fun _ _ => some []) (fun _ _ => none)
      [] [] [(1, 1), (2, 1), (1, 2), (2, 2)] [(1, [0, 0, 2, 2])] 0 []).2.2.2.2
      (by decide) (by rfl)).2.1 (1, [0, 0, 2, 2]) (by decide) (by rfl)
      (by decide) q
  · exact ((C7_position_mapper_absorption (fun _ _ => some []) (fun _ d => some d)
      [] [] [(1, 1), (2, 1), (1, 2), (2, 2)] [(1, [0, 0, 2, 2])] 0 []).2.2.2.2
      (by decide) (by rfl)).2.2 (1, [0, 0, 2, 2]) (by decide)
      ⟨[1, 2], [((1 : Int) : ℚ), ((2 : Int) : ℚ)]⟩ (by rfl)
  · exact (C7_position_mapper_absorption (fun _ _ => some []) (fun _ d => some d)
      [] [] [(1, 1)] [(1, [0, 0, 2, 2])] 0 []).2.2.1 (by decide)

/-- Accumulation from an already-seen state: every present frame in the
remaining window is summed and counted. -/
theorem speedFold_some (distances : List DistFrame) (pid : Int) :
    ∀ (L : List Nat) (t : ℚ) (c : Nat) (i0 : Nat),
      ∃ j : Nat,
        L.foldl (speedStep distances pid) (t, c, some i0) =
          (t + ((L.filter (fun i => ((distances.getD i []).lookup pid).isSome)).map
            (distAt distances pid)).sum,
           c + (L.filter (fun i => ((distances.getD i []).lookup pid).isSome)).length,
           some j) := by
  intro L
  induction L with
  | nil =>
    intro t c i0
    refine ⟨i0, ?_⟩
    simp
  | cons i L' ih =>
    intro t c i0
    rw [List.foldl_cons]
    cases h : (distances.getD i []).lookup pid with
    | none =>
      have hstep : speedStep distances pid (t, c, some i0) i = (t, c, some i0) := by
        simp only [speedStep, h]
      rw [hstep]
      obtain ⟨j, hj⟩ := ih t c i0
      refine ⟨j, ?_⟩
      rw [hj]
      have hfilter :
          (i :: L').filter (fun i => ((distances.getD i []).lookup pid).isSome) =
            L'.filter (fun i => ((distances.getD i []).lookup pid).isSome) := by
        have hcond : ((distances.getD i []).lookup pid).isSome = false := by
          rw [h]
          rfl
        rw [List.filter_cons, hcond]
        rfl
      rw [hfilter]
    | some d =>
      have hstep : speedStep distances pid (t, c, some i0) i = (t + d, c + 1, some i) := by
        simp only [speedStep, h]
      rw [hstep]
      obtain ⟨j, hj⟩ := ih (t + d) (c + 1) i
      refine ⟨j, ?_⟩
      rw [hj]
      have hfilter :
          (i :: L').filter (fun i => ((distances.getD i []).lookup pid).isSome) =
            i :: L'.filter (fun i => ((distances.getD i []).lookup pid).isSome) := by
        have hcond : ((distances.getD i []).lookup pid).isSome = true := by
          rw [h]
          rfl
        rw [List.filter_cons, hcond]
        rfl
      rw [hfilter, List.map_cons, List.sum_cons, List.length_cons]
      have hd : distAt distances pid i = d := by
        rw [distAt, h]
        rfl
      simp only [Prod.mk.injEq]
      refine ⟨by rw [hd]; ring, by omega, trivial⟩

/-- Accumulation from the initial state: the first present frame of the
window is skipped from both the sum and the count. -/
theorem speedFold_none (distances : List DistFrame) (pid : Int) :
    ∀ L : List Nat,
      (L.foldl (speedStep distances pid) (0, 0, none)).1 =
        (((L.filter (fun i => ((distances.getD i []).lookup pid).isSome)).tail).map
          (distAt distances pid)).sum ∧
      (L.foldl (speedStep distances pid) (0, 0, none)).2.1 =
        (L.filter (fun i => ((distances.getD i []).lookup pid).isSome)).length - 1 := by
  intro L
  induction L with
  | nil => simp
  | cons i L' ih =>
    rw [List.foldl_cons]
    cases h : (distances.getD i []).lookup pid with
    | none =>
      have hstep : speedStep distances pid (0, 0, none) i = ((0 : ℚ), 0, none) := by
        simp only [speedStep, h]
      rw [hstep]
      have hfilter :
          (i :: L').filter (fun i => ((distances.getD i []).lookup pid).isSome) =
            L'.filter (fun i => ((distances.getD i []).lookup pid).isSome) := by
        have hcond : ((distances.getD i []).lookup pid).isSome = false := by
          rw [h]
          rfl
        rw [List.filter_cons, hcond]
        rfl
      rw [hfilter]
      exact ih
    | some d =>
      have hstep : speedStep distances pid (0, 0, none) i = ((0 : ℚ), 0, some i) := by
        simp only [speedStep, h]
      rw [hstep]
      obtain ⟨j, hj⟩ := speedFold_some distances pid L' 0 0 i
      rw [hj]
      have hfilter :
          (i :: L').filter (fun i => ((distances.getD i []).lookup pid).isSome) =
            i :: L'.filter (fun i => ((distances.getD i []).lookup pid).isSome) := by
        have hcond : ((distances.getD i []).lookup pid).isSome = true := by
          rw [h]
          rfl
        rw [List.filter_cons, hcond]
        rfl
      rw [hfilter]
      constructor
      · simp
      · simp

/-- `speedOfPlayer` in terms of the present-frames window: skip-first
sample counting, then the more-than-5-samples test. -/
theorem speedOfPlayer_eq (distances : List DistFrame) (fps : Int) (f : Nat)
    (pid : Int) :
    speedOfPlayer distances fps f pid =
      if WINDOW_SIZE < (windowPresent distances pid f).length - 1 then
        if 0 < (((windowPresent distances pid f).length - 1 : Nat) : ℚ) / (fps : ℚ) then
          (((windowPresent distances pid f).tail).map (distAt distances pid)).sum /
            ((((windowPresent distances pid f).length - 1 : Nat) : ℚ) / (fps : ℚ))
        else 0
      else 0 := by
  obtain ⟨h1, h2⟩ := speedFold_none distances pid
    (List.range' (f + 1 - WINDOW_SIZE * 3) (f + 1 - (f + 1 - WINDOW_SIZE * 3)))
  simp only [speedOfPlayer, windowPresent]
  rw [h1, h2]

theorem lookup_map_keyed (l : List (Int × ℚ)) (g : Int → ℚ) (pid : Int) :
    (l.map (fun pr => (pr.1, g pr.1))).lookup pid = (l.lookup pid).map (fun _ => g pid) := by
  induction l with
  | nil => rfl
  | cons x xs ih =>
    obtain ⟨k, v⟩ := x
    rw [List.map_cons]
    cases hbeq : (pid == k) with
    | true =>
      have hk : pid = k := by simpa using hbeq
      simp [List.lookup, hbeq, hk]
    | false => simp [List.lookup, hbeq, ih]

/-- C8: speed smoothing.  For every player with a distance entry at frame
`f`, the speed output at `f` is present and equals: over the 15-frame
window ending at `f` (clipped at 0), with the first present sample
skipped, the summed distance divided by `countedSamples / fps` seconds
when more than `WINDOW_SIZE = 5` samples were counted, and exactly 0
otherwise. -/
theorem C8_speed_smoothing (distances : List DistFrame) (fps : Int) (f : Nat)
    (pid : Int) (hfps : 0 < fps) (hf : f < distances.length)
    (hmem : ((distances.getD f []).lookup pid).isSome = true) :
    ((calc_speed distances fps).getD f []).lookup pid =
      some (if WINDOW_SIZE < (windowPresent distances pid f).length - 1 then
        (((windowPresent distances pid f).tail).map (distAt distances pid)).sum /
          ((((windowPresent distances pid f).length - 1 : Nat) : ℚ) / (fps : ℚ))
      else 0) := by
  have hcs : (calc_speed distances fps).getD f [] =
      (distances.getD f []).map (fun pr => (pr.1, speedOfPlayer distances fps f pr.1)) := by
    rw [calc_speed]
    have hlen : f < (List.range distances.length).length := by simpa using hf
    simp [List.getD, List.getElem?_map, List.getElem?_eq_getElem hlen]
  rw [hcs, lookup_map_keyed]
  cases hl : (distances.getD f []).lookup pid with
  | none =>
    rw [hl] at hmem
    cases hmem
  | some v =>
    rw [Option.map_some', speedOfPlayer_eq]
    congr 1
    by_cases hcnt : WINDOW_SIZE < (windowPresent distances pid f).length - 1
    · rw [if_pos hcnt, if_pos hcnt, if_pos]
      have hc : (0 : ℚ) < (((windowPresent distances pid f).length - 1 : Nat) : ℚ) := by
        have : 0 < (windowPresent distances pid f).length - 1 := by
          have := hcnt
          rw [WINDOW_SIZE] at this
          omega
        exact_mod_cast this
      have hfq : (0 : ℚ) < (fps : ℚ) := by exact_mod_cast hfps
      exact div_pos hc hfq
    · rw [if_neg hcnt, if_neg hcnt]

/-- C8 witness: player 1 with a distance entry in 8 consecutive frames at
frame 7 (7 counted samples). -/
theorem C8_speed_smoothing_witness :
    ((calc_speed (List.replicate 8 [(1, (1 : ℚ))]) 30).getD 7 []).lookup 1 =
      some (if WINDOW_SIZE <
          (windowPresent (List.replicate 8 [(1, (1 : ℚ))]) 1 7).length - 1 then
        (((windowPresent (List.replicate 8 [(1, (1 : ℚ))]) 1 7).tail).map
            (distAt (List.replicate 8 [(1, (1 : ℚ))]) 1)).sum /
          ((((windowPresent (List.replicate 8 [(1, (1 : ℚ))]) 1 7).length - 1 : Nat) : ℚ) /
            ((30 : Int) : ℚ))
      else 0) :=
  C8_speed_smoothing (List.replicate 8 [(1, (1 : ℚ))]) 30 7 1
    (by decide) (by decide) (by decide)

/-- A non-`-1` result of the per-frame candidate selection is the id of a
player entry with a non-empty bounding box. -/
theorem find_best_mem (ball_bbox : Bbox) (ball_center : Int × Int) (players : PFrame)
    (h : find_best_cndt_for_poss ball_bbox ball_center players ≠ -1) :
    ∃ bb, (find_best_cndt_for_poss ball_bbox ball_center players, bb) ∈ players ∧
      bb ≠ [] := by
  classical
  set cands := players.filter (fun pr => !pr.2.isEmpty) with hcands
  set closeP := (cands.filter (fun pr => pairLtB (4, 5) (contNum pr.2 ball_bbox))).map
      (fun pr => (pr.1, contNum pr.2 ball_bbox)) with hcloseP
  set regP := (cands.filter (fun pr => !pairLtB (4, 5) (contNum pr.2 ball_bbox))).map
      (fun pr => (pr.1, min_dist_to_ball pr.2 ball_center)) with hregP
  have hfb : find_best_cndt_for_poss ball_bbox ball_center players =
      match pyMaxBy pairLtB closeP with
      | some best => best.1
      | none =>
        match pyMinBy (fun a b : WithTop Int => decide (a < b)) regP with
        | some best =>
          if best.2 < ((possession_threshold * possession_threshold : Int) : WithTop Int)
          then best.1 else -1
        | none => -1 := rfl
  have hmem_cands : ∀ pr : Int × Bbox, pr ∈ cands → pr ∈ players ∧ pr.2 ≠ [] := by
    intro pr hpr
    rw [hcands, List.mem_filter] at hpr
    exact ⟨hpr.1, by simpa [List.isEmpty_iff] using hpr.2⟩
  rw [hfb] at h ⊢
  cases hmax : pyMaxBy pairLtB closeP with
  | some m =>
    obtain ⟨hmmem, _⟩ := pyMaxBy_spec ratOfPair pairLtB pairLtB_eq closeP m hmax
    rw [hcloseP] at hmmem
    obtain ⟨pr', hpr'f, hpr'eq⟩ := List.mem_map.mp hmmem
    obtain ⟨hp, hne⟩ := hmem_cands pr' (List.mem_filter.mp hpr'f).1
    refine ⟨pr'.2, ?_, hne⟩
    rw [← hpr'eq]
    exact hp
  | none =>
    rw [hmax] at h
    cases hmin : pyMinBy (fun a b : WithTop Int => decide (a < b)) regP with
    | none =>
      rw [hmin] at h
      exact absurd rfl h
    | some m =>
      rw [hmin] at h
      by_cases hlt : m.2 <
          ((possession_threshold * possession_threshold : Int) : WithTop Int)
      · obtain ⟨hmmem, _⟩ :=
          pyMinBy_spec (id : WithTop Int → WithTop Int)
            (fun a b => decide (a < b)) (fun a b => rfl) regP m hmin
        rw [hregP] at hmmem
        obtain ⟨pr', hpr'f, hpr'eq⟩ := List.mem_map.mp hmmem
        obtain ⟨hp, hne⟩ := hmem_cands pr' (List.mem_filter.mp hpr'f).1
        show ∃ bb,
          ((if m.2 < ((possession_threshold * possession_threshold : Int) : WithTop Int)
            then m.1 else -1), bb) ∈ players ∧ bb ≠ []
        rw [if_pos hlt]
        refine ⟨pr'.2, ?_, hne⟩
        rw [← hpr'eq]
        exact hp
      · have h' : (if m.2 <
            ((possession_threshold * possession_threshold : Int) : WithTop Int)
            then m.1 else -1) ≠ -1 := h
        rw [if_neg hlt] at h'
        exact absurd rfl h'

/-- Every non-`-1` output of the possession run is the id of a player
entry, with a non-empty bounding box, of that frame's player tracks. -/
theorem possRun_mem :
    ∀ (bts : List BFrame) (pts : List PFrame) (cnt : Cnt) (f : Nat),
      (possRun pts bts cnt).getD f (-1) ≠ -1 →
      ∃ bb, ((possRun pts bts cnt).getD f (-1), bb) ∈ pts.getD f [] ∧ bb ≠ [] := by
  intro bts
  induction bts with
  | nil =>
    intro pts cnt f h
    exact absurd rfl h
  | cons b bs ih =>
    intro pts cnt f h
    cases f with
    | zero =>
      rw [show possRun pts (b :: bs) cnt =
        (possStep (pts.headD []) b cnt).1 ::
          possRun pts.tail bs (possStep (pts.headD []) b cnt).2 from rfl,
        cons_getD_zero] at h ⊢
      rw [← headD_getD]
      cases hw : frameWinner (pts.headD []) b with
      | none =>
        have hstep : (possStep (pts.headD []) b cnt).1 = -1 := by
          simp only [possStep, hw]
        rw [hstep] at h
        exact absurd rfl h
      | some best =>
        by_cases hbest : best = -1
        · have hstep : (possStep (pts.headD []) b cnt).1 = -1 := by
            simp only [possStep, hw]
            rw [if_pos hbest]
          rw [hstep] at h
          exact absurd rfl h
        · by_cases hge : min_frames ≤ cntGet cnt best + 1
          · have hstep : (possStep (pts.headD []) b cnt).1 = best := by
              simp only [possStep, hw]
              rw [if_neg hbest, if_pos hge]
            rw [hstep]
            have hw' : Option.map (fun bb =>
                find_best_cndt_for_poss bb (get_center_of_bbox bb) (pts.headD []))
                (ballBBoxOf b) = some best := hw
            obtain ⟨bb0, hbb0, hbb0eq⟩ := Option.map_eq_some'.mp hw'
            rw [← hbb0eq]
            exact find_best_mem bb0 (get_center_of_bbox bb0) (pts.headD [])
              (by rw [hbb0eq]; exact hbest)
          · have hstep : (possStep (pts.headD []) b cnt).1 = -1 := by
              simp only [possStep, hw]
              rw [if_neg hbest, if_neg hge]
            rw [hstep] at h
            exact absurd rfl h
    | succ f =>
      rw [show possRun pts (b :: bs) cnt =
        (possStep (pts.headD []) b cnt).1 ::
          possRun pts.tail bs (possStep (pts.headD []) b cnt).2 from rfl,
        cons_getD_succ] at h ⊢
      rw [← tail_getD]
      exact ih pts.tail (possStep (pts.headD []) b cnt).2 f h

/-- A non-`-1` specification pass value is a team id assigned to some
player in the current frame's team map. -/
theorem passAt_team_mem (poss : List Int) (teams : List TeamFrame) (f : Nat) (t : Int)
    (ht : passAt poss teams f = t) (htne : t ≠ -1) :
    ∃ p : Int, (teams.getD f []).lookup p = some t := by
  rw [passAt] at ht
  cases hidx : lastNonNegIdx poss f with
  | none =>
    rw [hidx] at ht
    have h0 : (-1 : Int) = t := ht
    exact absurd h0.symm htne
  | some j =>
    rw [hidx] at ht
    have h0 : (if poss.getD f (-1) ≠ -1 ∧ poss.getD j (-1) ≠ poss.getD f (-1) then
        if teamGet (teams.getD j []) (poss.getD j (-1)) =
            teamGet (teams.getD f []) (poss.getD f (-1)) ∧
           teamGet (teams.getD j []) (poss.getD j (-1)) ≠ -1 then
          teamGet (teams.getD j []) (poss.getD j (-1))
        else -1
      else -1) = t := ht
    by_cases hc1 : poss.getD f (-1) ≠ -1 ∧ poss.getD j (-1) ≠ poss.getD f (-1)
    · rw [if_pos hc1] at h0
      by_cases hc2 : teamGet (teams.getD j []) (poss.getD j (-1)) =
          teamGet (teams.getD f []) (poss.getD f (-1)) ∧
          teamGet (teams.getD j []) (poss.getD j (-1)) ≠ -1
      · rw [if_pos hc2] at h0
        have hcur : teamGet (teams.getD f []) (poss.getD f (-1)) = t := by
          rw [← hc2.1]
          exact h0
        refine ⟨poss.getD f (-1), ?_⟩
        rw [teamGet] at hcur
        cases hl : (teams.getD f []).lookup (poss.getD f (-1)) with
        | none =>
          rw [hl] at hcur
          exact absurd hcur.symm htne
        | some v =>
          rw [hl] at hcur
          have hv : v = t := hcur
          rw [hv]
      · rw [if_neg hc2] at h0
        exact absurd h0.symm htne
    · rw [if_neg hc1] at h0
      exact absurd h0.symm htne

/-- A non-`-1` specification interception value is a team id assigned to
some player in the current frame's team map. -/
theorem interceptionAt_team_mem (poss : List Int) (teams : List TeamFrame) (f : Nat)
    (t : Int) (ht : interceptionAt poss teams f = t) (htne : t ≠ -1) :
    ∃ p : Int, (teams.getD f []).lookup p = some t := by
  rw [interceptionAt] at ht
  cases hidx : lastNonNegIdx poss f with
  | none =>
    rw [hidx] at ht
    have h0 : (-1 : Int) = t := ht
    exact absurd h0.symm htne
  | some j =>
    rw [hidx] at ht
    have h0 : (if poss.getD f (-1) ≠ -1 ∧ poss.getD j (-1) ≠ poss.getD f (-1) then
        if teamGet (teams.getD j []) (poss.getD j (-1)) ≠
            teamGet (teams.getD f []) (poss.getD f (-1)) ∧
           teamGet (teams.getD j []) (poss.getD j (-1)) ≠ -1 ∧
           teamGet (teams.getD f []) (poss.getD f (-1)) ≠ -1 then
          teamGet (teams.getD f []) (poss.getD f (-1))
        else -1
      else -1) = t := ht
    by_cases hc1 : poss.getD f (-1) ≠ -1 ∧ poss.getD j (-1) ≠ poss.getD f (-1)
    · rw [if_pos hc1] at h0
      by_cases hc2 : teamGet (teams.getD j []) (poss.getD j (-1)) ≠
          teamGet (teams.getD f []) (poss.getD f (-1)) ∧
          teamGet (teams.getD j []) (poss.getD j (-1)) ≠ -1 ∧
          teamGet (teams.getD f []) (poss.getD f (-1)) ≠ -1
      · rw [if_pos hc2] at h0
        refine ⟨poss.getD f (-1), ?_⟩
        rw [teamGet] at h0
        cases hl : (teams.getD f []).lookup (poss.getD f (-1)) with
        | none =>
          rw [hl] at h0
          exact absurd h0.symm htne
        | some v =>
          rw [hl] at h0
          have hv : v = t := h0
          rw [hv]
      · rw [if_neg hc2] at h0
        exact absurd h0.symm htne
    · rw [if_neg hc1] at h0
      exact absurd h0.symm htne

/-- C9 (amended): every non-`-1` possession value at frame `f` is a player
id present with a non-empty bbox in that frame's player tracks; every
non-`-1` pass or interception value at frame `f` is a team id assigned to
some player in frame `f`'s team-assignment map (NOT, in general, an
identity in that frame's tracks — see the counterexample). -/
theorem C9_output_identity (pts : List PFrame) (bts : List BFrame)
    (poss : List Int) (teams : List TeamFrame) (f : Nat) :
    ((detect_ball_possession pts bts).getD f (-1) ≠ -1 →
      ∃ bb, ((detect_ball_possession pts bts).getD f (-1), bb) ∈ pts.getD f [] ∧
        bb ≠ []) ∧
    (∀ t : Int, (detect_passes poss teams).getD f (-1) = t → t ≠ -1 →
      ∃ p : Int, (teams.getD f []).lookup p = some t) ∧
    (∀ t : Int, (detect_interception poss teams).getD f (-1) = t → t ≠ -1 →
      ∃ p : Int, (teams.getD f []).lookup p = some t) := by
  refine ⟨fun h => possRun_mem bts pts [] f h, ?_, ?_⟩
  · intro t ht htne
    have hf : f < poss.length := by
      by_contra hge
      rw [getD_of_length_le _ f (-1) (by rw [detect_passes_length]; omega)] at ht
      exact htne ht.symm
    rw [detect_passes_getD poss teams f (-1) hf] at ht
    exact passAt_team_mem poss teams f t ht htne
  · intro t ht htne
    have hf : f < poss.length := by
      by_contra hge
      rw [getD_of_length_le _ f (-1) (by rw [detect_interception_length]; omega)] at ht
      exact htne ht.symm
    rw [detect_interception_getD poss teams f (-1) hf] at ht
    exact interceptionAt_team_mem poss teams f t ht htne

/-- C9 counterexample: in a full pipeline run (players 3 and 4, both on
team 1), the pass recorded at frame 21 carries team id 1, which is not an
identity present in frame 21's player tracks, refuting the claim as
stated for pass values. -/
theorem C9_output_identity_counterexample :
    (detect_passes (detect_ball_possession c9PlayerTracks c9BallTracks)
      c9Teams).getD 21 (-1) = 1 ∧
    (1 : Int) ≠ -1 ∧
    (1 : Int) ∉ (c9PlayerTracks.getD 21 []).map Prod.fst := by decide

/-- C9 witness: an 11-frame streak surfaces player 7, which is indeed a
tracked player of that frame; a same-team pass value is a team id of the
consulted team map. -/
theorem C9_output_identity_witness :
    (∃ bb, ((detect_ball_possession (List.replicate 11 [(7, [0, 0, 10, 10])])
        (List.replicate 11 [(1, ([1, 1, 3, 3] : Bbox))])).getD 10 (-1), bb) ∈
        (List.replicate 11 [(7, ([0, 0, 10, 10] : Bbox))]).getD 10 [] ∧ bb ≠ []) ∧
    (∃ p : Int, (([[(1, 1), (2, 1)], [(1, 1), (2, 1)]] :
        List TeamFrame).getD 1 []).lookup p = some 1) := by
  constructor
  · exact (C9_output_identity (List.replicate 11 [(7, [0, 0, 10, 10])])
      (List.replicate 11 [(1, ([1, 1, 3, 3] : Bbox))]) [] [] 10).1 (by decide)
  · exact (C9_output_identity [] [] [1, 2] [[(1, 1), (2, 1)], [(1, 1), (2, 1)]] 1).2.1
      1 (by decide) (by decide)

theorem set_getD_ne {α : Type} (l : List α) (j : Nat) (v : α) (i : Nat) (d : α)
    (h : i ≠ j) : (l.set j v).getD i d = l.getD i d := by
  simp [List.getD, List.getElem?_set_ne (Ne.symm h)]

theorem append_getD_left {α : Type} (l l' : List α) (i : Nat) (d : α)
    (h : i < l.length) : (l ++ l').getD i d = l.getD i d := by
  simp [List.getD, List.getElem?_append, h]

/-- The inner invalidation loop writes only through the frame's own
reference: all other store cells are untouched. -/
theorem validateKpStep_getD (ref : Nat) (snapshot : List Pt) (detected : List Nat) :
    ∀ (todo : List Nat) (store : Store) (invalid : List Nat) (i : Nat), i ≠ ref →
      (validateKpStep ref snapshot detected store invalid todo).getD i kpDefault =
        store.getD i kpDefault := by
  intro todo
  induction todo with
  | nil =>
    intro store invalid i _
    rfl
  | cons i1 rest ih =>
    intro store invalid i hi
    have hunf : validateKpStep ref snapshot detected store invalid (i1 :: rest) =
        if (snapshot.getD i1 (0, 0)).1 = 0 ∧ (snapshot.getD i1 (0, 0)).2 = 0 then
          validateKpStep ref snapshot detected store invalid rest
        else if (detected.filter (fun i => decide (i ≠ i1 ∧ i ∉ invalid))).length < 2 then
          validateKpStep ref snapshot detected store invalid rest
        else if invalidCond snapshot i1
            ((detected.filter (fun i => decide (i ≠ i1 ∧ i ∉ invalid))).getD 0 0)
            ((detected.filter (fun i => decide (i ≠ i1 ∧ i ∉ invalid))).getD 1 0) then
          validateKpStep ref snapshot detected
            (store.set ref (zeroKp (store.getD ref kpDefault) i1)) (invalid ++ [i1]) rest
        else
          validateKpStep ref snapshot detected store invalid rest := rfl
    rw [hunf]
    split_ifs with h1 h2 h3
    · exact ih store invalid i hi
    · exact ih store invalid i hi
    · rw [ih _ _ i hi, set_getD_ne _ _ _ _ _ hi]
    · exact ih store invalid i hi

/-- The frame loop of `validate_map` writes only through the references it
is given. -/
theorem validateFrames_getD :
    ∀ (refs : List Nat) (store : Store) (i : Nat), (∀ r ∈ refs, i ≠ r) →
      (validateFrames store refs).getD i kpDefault = store.getD i kpDefault := by
  intro refs
  induction refs with
  | nil =>
    intro store i _
    rfl
  | cons ref rs ih =>
    intro store i hi
    have hunf : validateFrames store (ref :: rs) =
        if ((List.range ((store.getD ref kpDefault).xy.getD 0 []).length).filter
            (fun j => decide (0 < (((store.getD ref kpDefault).xy.getD 0 []).getD j (0, 0)).1 ∧
              0 < (((store.getD ref kpDefault).xy.getD 0 []).getD j (0, 0)).2))).length < 3 then
          validateFrames store rs
        else
          validateFrames
            (validateKpStep ref ((store.getD ref kpDefault).xy.getD 0 [])
              ((List.range ((store.getD ref kpDefault).xy.getD 0 []).length).filter
                (fun j => decide (0 < (((store.getD ref kpDefault).xy.getD 0 []).getD j (0, 0)).1 ∧
                  0 < (((store.getD ref kpDefault).xy.getD 0 []).getD j (0, 0)).2)))
              store []
              ((List.range ((store.getD ref kpDefault).xy.getD 0 []).length).filter
                (fun j => decide (0 < (((store.getD ref kpDefault).xy.getD 0 []).getD j (0, 0)).1 ∧
                  0 < (((store.getD ref kpDefault).xy.getD 0 []).getD j (0, 0)).2))))
            rs := rfl
    rw [hunf]
    have htail : ∀ r ∈ rs, i ≠ r := fun r hr => hi r (List.mem_cons_of_mem ref hr)
    split_ifs with h3
    · exact ih store i htail
    · rw [ih _ i htail]
      exact validateKpStep_getD ref _ _ _ store [] i (hi ref (List.mem_cons_self ref rs))

/-- C10: `validate_map` does not mutate its input.  Under the explicit
object-store model, every input reference's object is unchanged by the
call, the returned list consists of fresh references none of which is an
input reference, and it has the input's length. -/
theorem C10_validate_map_no_mutation (store : Store) (refs : List Nat)
    (h : ∀ r ∈ refs, r < store.length) :
    (∀ r ∈ refs,
      (validate_map store refs).1.getD r kpDefault = store.getD r kpDefault) ∧
    (∀ r' ∈ (validate_map store refs).2, r' ∉ refs) ∧
    (validate_map store refs).2.length = refs.length := by
  have hfst : (validate_map store refs).1 =
      validateFrames (store ++ refs.map (fun r => store.getD r kpDefault))
        ((List.range refs.length).map (fun i => store.length + i)) := rfl
  have hsnd : (validate_map store refs).2 =
      (List.range refs.length).map (fun i => store.length + i) := rfl
  refine ⟨?_, ?_, ?_⟩
  · intro r hr
    rw [hfst, validateFrames_getD _ _ r ?_]
    · exact append_getD_left _ _ r kpDefault (h r hr)
    · intro r' hr'
      obtain ⟨j, _, rfl⟩ := List.mem_map.mp hr'
      have := h r hr
      omega
  · intro r' hr'
    rw [hsnd] at hr'
    obtain ⟨j, _, rfl⟩ := List.mem_map.mp hr'
    intro hcon
    have := h _ hcon
    omega
  · rw [hsnd, List.length_map, List.length_range]

/-- C10 witness: a one-frame store; the original object survives the call
and one fresh reference is returned. -/
theorem C10_validate_map_no_mutation_witness :
    (validate_map [⟨[[(1, 1)]], [[(1, 1)]]⟩] [0]).1.getD 0 kpDefault =
      ([⟨[[(1, 1)]], [[(1, 1)]]⟩] : Store).getD 0 kpDefault ∧
    (validate_map [⟨[[(1, 1)]], [[(1, 1)]]⟩] [0]).2.length = 1 := by
  have h := C10_validate_map_no_mutation [⟨[[(1, 1)]], [[(1, 1)]]⟩] [0] (by decide)
  exact ⟨h.1 0 (by decide), h.2.2⟩

/-- C2 witness: concrete frames exercising the three conditional parts
(no-candidate reset, fresh-candidate restart, ball-undetected no-op). -/
theorem C2_counter_update_witness :
    (possStep [(1, [100, 100, 110, 110])] [(1, [0, 0, 2, 2])] [(2, 3)] = (-1, [])) ∧
    (possStep [(1, [0, 0, 10, 10])] [(1, [0, 0, 2, 2])] [(2, 3)]).2 = [(1, 1)] ∧
    (possStep [(1, [0, 0, 10, 10])] [] [(2, 3)] = (-1, [(2, 3)])) := by
  refine ⟨?_, ?_, ?_⟩
  · exact (C2_counter_update [(1, [100, 100, 110, 110])] [(1, [0, 0, 2, 2])] [(2, 3)]
      (-1)).1 (by decide)
  · exact ((C2_counter_update [(1, [0, 0, 10, 10])] [(1, [0, 0, 2, 2])] [(2, 3)]
      1).2.1) (by decide) (by decide) (by decide)
  · exact ((C2_counter_update [(1, [0, 0, 10, 10])] [] [(2, 3)] 1).2.2.1) (by decide)

example : get_center_of_bbox [0, 0, 3, 5] = (1, 2) := by decide
example : contNum [0, 0, 10, 10] [1, 1, 3, 3] = (4, 4) := by decide
example : min_dist_to_ball [0, 0, 10, 10] (5, 5) = ((25 : Int) : WithTop Int) := by decide
example :
    find_best_cndt_for_poss [1, 1, 3, 3] (2, 2) [(7, [0, 0, 10, 10]), (9, [4, 4, 6, 6])] = 7 := by
  decide
example :
    detect_ball_possession
      (List.replicate 11 [(7, [0, 0, 10, 10])])
      (List.replicate 11 [(1, ([1, 1, 3, 3] : Bbox))]) =
    List.replicate 10 (-1) ++ [7] := by decide

example :
    detect_passes [1, 1, -1, 2, 2] [[(1, 1), (2, 1)], [(1, 1), (2, 1)],
      [(1, 1), (2, 1)], [(1, 1), (2, 1)], [(1, 1), (2, 1)]] =
    [-1, -1, -1, 1, -1] := by decide
example :
    detect_interception [1, 1, -1, 2, 2] [[(1, 1), (2, 2)], [(1, 1), (2, 2)],
      [(1, 1), (2, 2)], [(1, 1), (2, 2)], [(1, 1), (2, 2)]] =
    [-1, -1, -1, 2, -1] := by decide

end Basketball
